import Mathlib

/-!
Verification of the rpi4 bare-metal kernel core against its specification.

The development shallowly embeds the C sources:
  * the preemptive round-robin scheduler (`task.c`): task pool, intrusive
    ready queue (modelled as a list of pool indices), `schedule_irq`,
    `task_kill`, `task_sleep`;
  * the physical page allocator and `kmalloc`/`kfree` (`memory.c`):
    bitmap, counters, bump pointer, free list, and a word-addressed memory
    map for the block headers;
  * the MMU translation tables built by `mmu_init` (`mmu.c`) together with
    an architectural 2 MB-block table walk;
  * the in-memory filesystem node pool (`fs.c`).

Machine words are modelled as `Nat`; the kernel's counters stay far below
2^64, and the one place where unsigned wrap-around is reachable
(`used_pages--`) is modelled with an explicit wrap.
-/

namespace RPiOS

/-! ## Scheduler data model (task.c / task.h) -/

/-- Task states, from `task_state_t` in task.h. -/
inductive task_state_t where
  | ready
  | running
  | blocked
  | dead
deriving DecidableEq, Repr

/-- Task control block, from `task_t` in task.h.  The 8 KB `stack` array is
not part of the model (no claim reads stack contents); the intrusive `next`
pointer is replaced by membership in the ready-queue list. -/
structure task_t where
  sp : Nat
  state : task_state_t
  id : Nat
  name : String
  sleep_until : Nat
deriving DecidableEq, Repr

/-- Whole-scheduler state: the globals of task.c plus the timer tick counter
of timer.c.  The intrusive ready queue (head pointer plus `next` links) is
modelled as the list of pool indices in queue order. -/
structure SchedState where
  task_pool : List task_t
  ready_queue : List Nat
  current_task : Option Nat
  tick_count : Nat
deriving DecidableEq, Repr

/-- Read a task's state from the pool, `none` when the index is out of range
(never happens for states reachable by the C code). -/
def stateAt (pool : List task_t) (i : Nat) : Option task_state_t :=
  (pool[i]?).map task_t.state

/-- Read a task's saved stack pointer (0 when out of range). -/
def spAt (pool : List task_t) (i : Nat) : Nat :=
  ((pool[i]?).map task_t.sp).getD 0

/-- Update the pool entry at index `i` (no-op out of range). -/
def modifyAt (pool : List task_t) (i : Nat) (f : task_t → task_t) : List task_t :=
  match pool[i]? with
  | some t => pool.set i (f t)
  | none => pool

/-- Set the state of pool entry `i`. -/
def setState (pool : List task_t) (i : Nat) (s : task_state_t) : List task_t :=
  modifyAt pool i (fun t => { t with state := s })

/-- `enqueue_task`: clear the `next` link and append at the tail of the
ready queue. -/
def enqueue_task (queue : List Nat) (i : Nat) : List Nat :=
  queue ++ [i]

/-- The first `if` inside the `dequeue_ready_task` loop: a BLOCKED task whose
deadline has passed becomes READY. -/
def wake_check (tick : Nat) (pool : List task_t) (i : Nat) : List task_t :=
  match pool[i]? with
  | some t =>
      if t.state = task_state_t.blocked ∧ t.sleep_until ≤ tick then
        pool.set i { t with state := task_state_t.ready }
      else pool
  | none => pool

/-- `dequeue_ready_task`: scan the queue from the head, waking timed-out
BLOCKED tasks along the way; splice out and return the first READY task.
Returns the updated pool, the remaining queue, and the found index. -/
def dequeue_ready_task (tick : Nat) (pool : List task_t) :
    List Nat → List task_t × List Nat × Option Nat
  | [] => (pool, [], none)
  | i :: rest =>
      let pool1 := wake_check tick pool i
      if stateAt pool1 i = some task_state_t.ready then
        (pool1, rest, some i)
      else
        let r := dequeue_ready_task tick pool1 rest
        (r.1, i :: r.2.1, r.2.2)

/-- `remove_from_queue`: unlink the first occurrence of `target` from the
ready queue (used by `task_kill`). -/
def remove_from_queue (queue : List Nat) (target : Nat) : List Nat :=
  queue.erase target

/-- `schedule_irq(old_sp)` from task.c, acting on the scheduler state and
returning the new state together with the stack pointer to resume. -/
def schedule_irq (st : SchedState) (old_sp : Nat) : SchedState × Nat :=
  match st.current_task with
  | none => (st, old_sp)
  | some c =>
      let pool := modifyAt st.task_pool c (fun t => { t with sp := old_sp })
      let pq :=
        if stateAt pool c = some task_state_t.running then
          (setState pool c task_state_t.ready, enqueue_task st.ready_queue c)
        else (pool, st.ready_queue)
      let d := dequeue_ready_task st.tick_count pq.1 pq.2
      match d.2.2 with
      | none =>
          let pool2 := setState d.1 c task_state_t.running
          ({ st with
              task_pool := pool2
              ready_queue := d.2.1
              current_task := some c }, spAt pool2 c)
      | some n =>
          let pool2 := setState d.1 n task_state_t.running
          ({ st with
              task_pool := pool2
              ready_queue := d.2.1
              current_task := some n }, spAt pool2 n)

/-- `task_kill(id)` from task.c: scan the pool for a live task with this id;
refuse the shell slot (index 0) and the current task; otherwise unlink from
the ready queue and mark DEAD.  Returns 0 on success, -1 on failure. -/
def task_kill (st : SchedState) (task_id : Nat) : SchedState × Int :=
  match st.task_pool.findIdx?
      (fun t => t.id == task_id && !(t.state == task_state_t.dead)) with
  | none => (st, -1)
  | some i =>
      if i = 0 then (st, -1)
      else if st.current_task = some i then (st, -1)
      else
        ({ st with
            task_pool := setState st.task_pool i task_state_t.dead
            ready_queue := remove_from_queue st.ready_queue i }, 0)

/-- `task_sleep(ms)` from task.c (part with re-enqueue): round the delay up
to whole 100 ms ticks, record the absolute deadline, mark the current task
BLOCKED and re-enqueue it so the dequeue scan can check the deadline.
The subsequent wfi spin loop does not change scheduler state. -/
def task_sleep (st : SchedState) (ms : Nat) : SchedState :=
  match st.current_task with
  | none => st
  | some c =>
      let ticks := (ms + 99) / 100
      let pool := modifyAt st.task_pool c
        (fun t => { t with
                      sleep_until := st.tick_count + ticks
                      state := task_state_t.blocked })
      { st with task_pool := pool, ready_queue := enqueue_task st.ready_queue c }

/-- One timer interrupt as dispatched by `irq_handler_c` in kernel.c:
`timer_handle_irq` increments the tick counter, then `schedule_irq` runs
with the interrupted task's stack pointer. -/
def timerTick (st : SchedState) : SchedState :=
  (schedule_irq { st with tick_count := st.tick_count + 1 }
    (spAt st.task_pool (st.current_task.getD 0))).1

/-- Iterated timer interrupts. -/
def timerRun (st : SchedState) : Nat → SchedState
  | 0 => st
  | n + 1 => timerRun (timerTick st) n

/-! ## Specification-side description of the dispatch (claim C1)

The spec describes the dequeue step non-operationally: the task selected is
the first task in queue order that is READY or is BLOCKED with an expired
deadline, it is woken if necessary, and it is removed from the queue. -/

/-- A queued task is eligible for dispatch: READY already, or BLOCKED with
`sleep_until ≤` the current tick count (it would be woken by the scan). -/
def eligibleB (tick : Nat) (pool : List task_t) (i : Nat) : Bool :=
  match pool[i]? with
  | some t =>
      t.state == task_state_t.ready ||
        (t.state == task_state_t.blocked && decide (t.sleep_until ≤ tick))
  | none => false

/-- Spec-side dequeue: find the first eligible task in the queue, wake it if
its deadline passed, and remove it from the queue. -/
def dequeueSpec (tick : Nat) (pool : List task_t) (queue : List Nat) :
    List task_t × List Nat × Option Nat :=
  match queue.findIdx? (eligibleB tick pool) with
  | none => (pool, queue, none)
  | some j =>
      (wake_check tick pool (queue.getD j 0), queue.eraseIdx j,
        some (queue.getD j 0))

/-- Spec-side description of `schedule_irq` as stated by the claim: save
`old_sp`, demote a RUNNING current task to READY at the queue tail, then
dispatch the first eligible queued task, falling back to the previous
task when none is eligible. -/
def schedule_irqSpec (st : SchedState) (old_sp : Nat) : SchedState × Nat :=
  match st.current_task with
  | none => (st, old_sp)
  | some c =>
      let pool := modifyAt st.task_pool c (fun t => { t with sp := old_sp })
      let pq :=
        if stateAt pool c = some task_state_t.running then
          (setState pool c task_state_t.ready, enqueue_task st.ready_queue c)
        else (pool, st.ready_queue)
      let d := dequeueSpec st.tick_count pq.1 pq.2
      match d.2.2 with
      | none =>
          let pool2 := setState d.1 c task_state_t.running
          ({ st with
              task_pool := pool2
              ready_queue := d.2.1
              current_task := some c }, spAt pool2 c)
      | some n =>
          let pool2 := setState d.1 n task_state_t.running
          ({ st with
              task_pool := pool2
              ready_queue := d.2.1
              current_task := some n }, spAt pool2 n)

/-- A round-robin configuration: `c` is current and RUNNING, all queued tasks
are READY, and no task appears twice.  This is the state shape of `k` live
never-blocking tasks competing for the CPU. -/
def RRConfig (st : SchedState) (c : Nat) (q : List Nat) : Prop :=
  st.current_task = some c ∧
  stateAt st.task_pool c = some task_state_t.running ∧
  (∀ i ∈ q, stateAt st.task_pool i = some task_state_t.ready) ∧
  (c :: q).Nodup ∧
  st.ready_queue = q

instance (st : SchedState) (c : Nat) (q : List Nat) :
    Decidable (RRConfig st c q) := by
  unfold RRConfig
  infer_instance

/-- Concrete round-robin configuration used to witness the fairness theorem:
task 0 is current and RUNNING, tasks 1 and 2 are READY and queued. -/
def rrW : SchedState :=
  { task_pool :=
      [{ sp := 0, state := task_state_t.running, id := 0, name := "shell", sleep_until := 0 },
       { sp := 0, state := task_state_t.ready, id := 1, name := "a", sleep_until := 0 },
       { sp := 0, state := task_state_t.ready, id := 2, name := "b", sleep_until := 0 }]
    ready_queue := [1, 2]
    current_task := some 0
    tick_count := 0 }

/-- Read a task's sleep deadline from the pool. -/
def sleepAt (pool : List task_t) (i : Nat) : Option Nat :=
  (pool[i]?).map task_t.sleep_until

/-- Scenario shape for the sleep bound: the shell `iSh` is current and
RUNNING, the sleeper `iS` is BLOCKED with deadline `d` and alone in the
ready queue. -/
def SleepCfg (iS iSh d : Nat) (st : SchedState) : Prop :=
  st.current_task = some iSh ∧
  stateAt st.task_pool iSh = some task_state_t.running ∧
  stateAt st.task_pool iS = some task_state_t.blocked ∧
  sleepAt st.task_pool iS = some d ∧
  st.ready_queue = [iS]

/-- Default TCB used for total reads from the pool. -/
def dfltTask : task_t :=
  { sp := 0, state := task_state_t.dead, id := 0, name := "", sleep_until := 0 }

/-- Well-formedness: distinct live pool slots carry distinct ids (ids are
assigned monotonically by `task_create`, so this holds in reachable states). -/
def liveIdsInjective (pool : List task_t) : Prop :=
  ∀ i, ∀ hi : i < pool.length, ∀ j, ∀ hj : j < pool.length,
    (pool.get ⟨i, hi⟩).state ≠ task_state_t.dead →
    (pool.get ⟨j, hj⟩).state ≠ task_state_t.dead →
    (pool.get ⟨i, hi⟩).id = (pool.get ⟨j, hj⟩).id → i = j

instance (pool : List task_t) : Decidable (liveIdsInjective pool) := by
  unfold liveIdsInjective
  infer_instance

/-- Concrete state used to witness the `task_kill` theorem. -/
def killW : SchedState :=
  { task_pool :=
      [{ sp := 0, state := task_state_t.running, id := 0, name := "shell", sleep_until := 0 },
       { sp := 0, state := task_state_t.ready, id := 1, name := "a", sleep_until := 0 },
       { sp := 0, state := task_state_t.ready, id := 2, name := "b", sleep_until := 0 }]
    ready_queue := [1, 2]
    current_task := some 0
    tick_count := 0 }

/-- The state just before `task_sleep` in the counterexample for C3: the
sleeper (index 2) is current and RUNNING with two competing READY tasks
queued in front of it. -/
def sleepCexPre : SchedState :=
  { task_pool :=
      [{ sp := 0, state := task_state_t.ready, id := 0, name := "a", sleep_until := 0 },
       { sp := 0, state := task_state_t.ready, id := 1, name := "b", sleep_until := 0 },
       { sp := 0, state := task_state_t.running, id := 2, name := "s", sleep_until := 0 }]
    ready_queue := [0, 1]
    current_task := some 2
    tick_count := 0 }

/-- The state just before `task_sleep` in the witness for the amended C3:
the sleeper (index 1) is current and RUNNING, the shell (index 0) is the
only queued READY task. -/
def sleepWitPre : SchedState :=
  { task_pool :=
      [{ sp := 0, state := task_state_t.ready, id := 0, name := "shell", sleep_until := 0 },
       { sp := 0, state := task_state_t.running, id := 1, name := "s", sleep_until := 0 }]
    ready_queue := [0]
    current_task := some 1
    tick_count := 0 }

/-! ## Physical page allocator and kmalloc (memory.c)

The globals of memory.c become a `MemState`.  `total_pages` and
`first_free_page` are compile-time constants in the source (set once in
`memory_init` from fixed addresses) and are modelled as definitions.
Machine addresses and counters are `Nat`; the only counter whose unsigned
wrap-around is reachable (`used_pages--` on a stray free) wraps explicitly
modulo 2^64. -/

def PAGE_SIZE : Nat := 4096

def MANAGED_PAGES : Nat := 64 * 1024 * 1024 / PAGE_SIZE

def total_pages : Nat := MANAGED_PAGES

def BITMAP_ADDR : Nat := 0x100000

def BITMAP_SIZE : Nat := MANAGED_PAGES / 8

/-- `sizeof(block_header_t)` on LP64: size (8) + magic (8) + next (8) +
int is_page_alloc (4, padded to 8). -/
def HEADER_SIZE : Nat := 32

def BLOCK_MAGIC : Nat := 0xDEADBEEF

def HEAP_PAGES : Nat := 64

def HEAP_SIZE : Nat := HEAP_PAGES * PAGE_SIZE

/-- `pages_start = (BITMAP_ADDR + BITMAP_SIZE + PAGE_SIZE - 1) & ~(PAGE_SIZE-1)`. -/
def pages_start : Nat := (BITMAP_ADDR + BITMAP_SIZE + PAGE_SIZE - 1) / PAGE_SIZE * PAGE_SIZE

def first_free_page : Nat := pages_start / PAGE_SIZE

/-- State of memory.c: page bitmap (one flag per managed page), used-page
counter, the heap bump region, the free list (list of header addresses,
head first, standing for the intrusive `next` chain), and byte-addressed
memory holding the 8-byte header fields. -/
structure MemState where
  bitmap : Nat → Bool
  used_pages : Nat
  heap_brk : Nat
  heap_end : Nat
  free_list : List Nat
  mem : Nat → Nat

/-- `bitmap_set`: no-op beyond the managed range. -/
def bitmap_set (bm : Nat → Bool) (lp : Nat) : Nat → Bool :=
  if lp < MANAGED_PAGES then (fun l => if l = lp then true else bm l) else bm

/-- `bitmap_clear`: no-op beyond the managed range. -/
def bitmap_clear (bm : Nat → Bool) (lp : Nat) : Nat → Bool :=
  if lp < MANAGED_PAGES then (fun l => if l = lp then false else bm l) else bm

/-- `bitmap_test`: reads beyond the managed range return 1 (allocated). -/
def bitmap_test (bm : Nat → Bool) (lp : Nat) : Bool :=
  if lp < MANAGED_PAGES then bm lp else true

/-- Inner loop of `page_alloc_n`: first offset `j < count` whose bit is set. -/
def firstSet (bm : Nat → Bool) (i count : Nat) : Option Nat :=
  (List.range count).find? (fun j => bitmap_test bm (i + j))

/-- Outer scan loop of `page_alloc_n`: starting at `i`, find the first `i`
with `count` consecutive clear bits; on a set bit at offset `j` restart at
`i + j + 1`, exactly as the C loop does.  The loop advances `i` by at least
one per iteration and exits once `i + count > total_pages`, so
`total_pages + 1` iterations always suffice; the explicit iteration bound
(`fuel`) makes the definition computable by the kernel. -/
def findRun (bm : Nat → Bool) (count : Nat) : Nat → Nat → Option Nat
  | 0, _ => none
  | fuel + 1, i =>
      if i + count ≤ total_pages then
        match firstSet bm i count with
        | none => some i
        | some j => findRun bm count fuel (i + j + 1)
      else none

/-- `page_alloc_n(count)`: scan for a clear run, set its bits (bumping
`used_pages` once per page), and return the physical address; 0 on failure. -/
def page_alloc_n (st : MemState) (count : Nat) : MemState × Nat :=
  if count = 0 then (st, 0)
  else
    match findRun st.bitmap count (total_pages + 1) 0 with
    | some i =>
        let r := (List.range count).foldl
          (fun acc j => (bitmap_set acc.1 (i + j), acc.2 + 1))
          (st.bitmap, st.used_pages)
        ({ st with bitmap := r.1, used_pages := r.2 },
          (first_free_page + i) * PAGE_SIZE)
    | none => (st, 0)

/-- Unsigned 64-bit decrement (`used_pages--`). -/
def decWrap (u : Nat) : Nat := (u + (2 ^ 64 - 1)) % 2 ^ 64

/-- `page_free_n(addr, count)`: clear the set bits of the run, decrementing
`used_pages` for each bit that was set; addresses below the managed base
are rejected. -/
def page_free_n (st : MemState) (addr count : Nat) : MemState :=
  let page := addr / PAGE_SIZE
  if page < first_free_page then st
  else
    let lp := page - first_free_page
    let r := (List.range count).foldl
      (fun acc j =>
        if bitmap_test acc.1 (lp + j) then (bitmap_clear acc.1 (lp + j), decWrap acc.2)
        else acc)
      (st.bitmap, st.used_pages)
    { st with bitmap := r.1, used_pages := r.2 }

def memory_get_free_pages (st : MemState) : Nat := total_pages - st.used_pages

def memory_get_used_pages (st : MemState) : Nat := st.used_pages

/-- `memory_init`: reserve the first `HEAP_PAGES` pages for the heap arena
(bitmap set bit by bit, `used_pages++` each time), place `brk` at the
arena start.  The MMIO write-probe diagnostics of the C code do not change
allocator state and are not modelled. -/
def memory_init : MemState :=
  let r := (List.range HEAP_PAGES).foldl
    (fun acc i => (bitmap_set acc.1 i, acc.2 + 1)) ((fun _ => false), 0)
  { bitmap := r.1
    used_pages := r.2
    heap_brk := pages_start
    heap_end := pages_start + HEAP_SIZE
    free_list := []
    mem := fun _ => 0 }

/-- Single 8-byte store. -/
def writeW (m : Nat → Nat) (a v : Nat) : Nat → Nat :=
  fun x => if x = a then v else m x

/-- The shared page-allocation path of `kmalloc` (large requests and heap
exhaustion): allocate `ceil(total/PAGE_SIZE)` pages, stamp the header
(size, magic, next = 0, `is_page_alloc` = page count), return the user
pointer past the header. -/
def kmalloc_pages (st : MemState) (size total : Nat) : MemState × Nat :=
  let pages := (total + PAGE_SIZE - 1) / PAGE_SIZE
  let r := page_alloc_n st pages
  if r.2 = 0 then (r.1, 0)
  else
    ({ r.1 with
        mem := writeW (writeW (writeW (writeW r.1.mem r.2 size)
          (r.2 + 8) BLOCK_MAGIC) (r.2 + 16) 0) (r.2 + 24) pages },
      r.2 + HEADER_SIZE)

/-- First-fit scan of the free list with splice-out of the hit
(`prev->next = blk->next`): returns the block and the remaining list. -/
def findFit (m : Nat → Nat) (size : Nat) : List Nat → Option (Nat × List Nat)
  | [] => none
  | blk :: rest =>
      if size ≤ m blk then some (blk, rest)
      else
        match findFit m size rest with
        | none => none
        | some r => some (r.1, blk :: r.2)

/-- `kmalloc(size)` from memory.c.  `(size + 15) & ~15` is written as
rounding up to a multiple of 16 (equal on `Nat`). -/
def kmalloc (st : MemState) (size0 : Nat) : MemState × Nat :=
  if size0 = 0 then (st, 0)
  else
    let size := (size0 + 15) / 16 * 16
    let total := size + HEADER_SIZE
    if size > PAGE_SIZE / 2 then kmalloc_pages st size total
    else
      match findFit st.mem size st.free_list with
      | some r =>
          ({ st with
              free_list := r.2
              mem := writeW (writeW st.mem (r.1 + 16) 0) (r.1 + 8) BLOCK_MAGIC },
            r.1 + HEADER_SIZE)
      | none =>
          if st.heap_brk + total > st.heap_end then kmalloc_pages st size total
          else
            ({ st with
                heap_brk := st.heap_brk + total
                mem := writeW (writeW (writeW (writeW st.mem st.heap_brk size)
                  (st.heap_brk + 8) BLOCK_MAGIC) (st.heap_brk + 16) 0)
                  (st.heap_brk + 24) 0 },
              st.heap_brk + HEADER_SIZE)

/-- `kfree(ptr)` from memory.c: recover the header, verify and clear the
magic, then either return the pages or push the block on the free list
(`hdr->next = free_list; free_list = hdr`). -/
def kfree (st : MemState) (ptr : Nat) : MemState :=
  if ptr = 0 then st
  else
    let hdr := ptr - HEADER_SIZE
    if st.mem (hdr + 8) ≠ BLOCK_MAGIC then st
    else
      let m1 := writeW st.mem (hdr + 8) 0
      if m1 (hdr + 24) > 0 then
        page_free_n { st with mem := m1 } hdr (m1 (hdr + 24))
      else
        { st with
            mem := writeW m1 (hdr + 16)
              (match st.free_list with
               | [] => 0
               | h :: _ => h)
            free_list := hdr :: st.free_list }

/-- Spec-side `kmalloc` following the claim text: round up, add the header,
large requests go to the page path, else first fit on the free list
(`find?` plus erase-first-match), else bump `brk` when `brk + total ≤
heap_end`, else fall back to the page path. -/
def kmallocSpec (st : MemState) (size0 : Nat) : MemState × Nat :=
  if size0 = 0 then (st, 0)
  else
    let size := (size0 + 15) / 16 * 16
    let total := size + HEADER_SIZE
    if size > PAGE_SIZE / 2 then kmalloc_pages st size total
    else
      match st.free_list.find? (fun blk => decide (size ≤ st.mem blk)) with
      | some blk =>
          ({ st with
              free_list := st.free_list.eraseP (fun b => decide (size ≤ st.mem b))
              mem := writeW (writeW st.mem (blk + 16) 0) (blk + 8) BLOCK_MAGIC },
            blk + HEADER_SIZE)
      | none =>
          if st.heap_brk + total ≤ st.heap_end then
            ({ st with
                heap_brk := st.heap_brk + total
                mem := writeW (writeW (writeW (writeW st.mem st.heap_brk size)
                  (st.heap_brk + 8) BLOCK_MAGIC) (st.heap_brk + 16) 0)
                  (st.heap_brk + 24) 0 },
              st.heap_brk + HEADER_SIZE)
          else kmalloc_pages st size total

/-! ### mmu.c page-table constants and mmu_init table contents -/

def PT_VALID : Nat := 1 <<< 0
def PT_TABLE : Nat := 1 <<< 1
def PT_BLOCK : Nat := 0 <<< 1
def PT_AF : Nat := 1 <<< 10
def PT_ISH : Nat := 3 <<< 8
def PT_OSH : Nat := 2 <<< 8
def PT_AP_RW_EL1 : Nat := 0 <<< 6
def PT_ATTR (idx : Nat) : Nat := idx <<< 2
def MT_DEVICE : Nat := 0
def MT_NORMAL : Nat := 1

def BLOCK_DEVICE : Nat :=
  PT_VALID ||| PT_BLOCK ||| PT_AF ||| PT_ATTR MT_DEVICE ||| PT_OSH ||| PT_AP_RW_EL1

def BLOCK_NORMAL : Nat :=
  PT_VALID ||| PT_BLOCK ||| PT_AF ||| PT_ATTR MT_NORMAL ||| PT_ISH ||| PT_AP_RW_EL1

def TABLE_ENTRY : Nat := PT_VALID ||| PT_TABLE

/-- Contents of `l2_ram_table` after the fill loop in `mmu_init`
(entry `i` maps physical `i * 2MB` as a normal block; all tables are
zeroed first, so out-of-range reads give 0). -/
def l2_ram_table (i : Nat) : Nat :=
  if i < 512 then i * (2 * 1024 * 1024) ||| BLOCK_NORMAL else 0

/-- Contents of `l2_dev_table` after `mmu_init` (entry `i` maps
`0xC0000000 + i * 2MB` as a device block). -/
def l2_dev_table (i : Nat) : Nat :=
  if i < 512 then (0xC0000000 + i * (2 * 1024 * 1024)) ||| BLOCK_DEVICE else 0

/-- Contents of `l1_table` after `mmu_init`: entry 0 points at the RAM L2
table, entry 3 at the device L2 table, the rest stay zero.  `ramB` and
`devB` are the (4 KB-aligned) addresses the linker gave the two arrays. -/
def l1_table (ramB devB i : Nat) : Nat :=
  if i = 0 then ramB ||| TABLE_ENTRY
  else if i = 3 then devB ||| TABLE_ENTRY
  else 0

/-- Contents of `l0_table` after `mmu_init`: entry 0 points at `l1_table`. -/
def l0_table (l1B i : Nat) : Nat :=
  if i = 0 then l1B ||| TABLE_ENTRY else 0

/-- 64-bit-word memory after `mmu_init`: reading an 8-byte word at byte
address `a` inside one of the four 4 KB table arrays returns that table's
entry; everything else is irrelevant to the walk and reads 0. -/
def mmuMem (l0B l1B ramB devB a : Nat) : Nat :=
  if l0B ≤ a ∧ a < l0B + 4096 then l0_table l1B ((a - l0B) / 8)
  else if l1B ≤ a ∧ a < l1B + 4096 then l1_table ramB devB ((a - l1B) / 8)
  else if ramB ≤ a ∧ a < ramB + 4096 then l2_ram_table ((a - ramB) / 8)
  else if devB ≤ a ∧ a < devB + 4096 then l2_dev_table ((a - devB) / 8)
  else 0

/-! ### Architectural translation-table walk (AArch64, 4 KB granule,
48-bit OA, TTBR0 = `l0B`, resolving to a 2 MB block at level 2) -/

/-- Next-level table address field of a table descriptor: bits 47:12. -/
def descTableAddr (d : Nat) : Nat := d / 4096 % 2 ^ 36 * 4096

/-- Output address of a level-2 block descriptor: bits 47:21. -/
def descBlockAddr2M (d : Nat) : Nat := d / 2 ^ 21 % 2 ^ 27 * 2 ^ 21

/-- AttrIndx field (bits 4:2) of a block descriptor. -/
def descAttrIdx (d : Nat) : Nat := d / 4 % 8

/-- AP field (bits 7:6) of a block descriptor. -/
def descAP (d : Nat) : Nat := d / 64 % 4

/-- SH field (bits 9:8) of a block descriptor. -/
def descSH (d : Nat) : Nat := d / 256 % 4

/-- Access flag (bit 10) of a block descriptor. -/
def descAF (d : Nat) : Nat := d / 1024 % 2

/-- Level-0 descriptor fetched for `va`: index = VA bits 47:39. -/
def l0_entry (m : Nat → Nat) (l0B va : Nat) : Nat :=
  m (l0B + 8 * (va / 2 ^ 39 % 512))

/-- Level-1 descriptor fetched for `va`: index = VA bits 38:30. -/
def l1_entry (m : Nat → Nat) (l0B va : Nat) : Nat :=
  m (descTableAddr (l0_entry m l0B va) + 8 * (va / 2 ^ 30 % 512))

/-- Level-2 descriptor fetched for `va`: index = VA bits 29:21. -/
def l2_entry (m : Nat → Nat) (l0B va : Nat) : Nat :=
  m (descTableAddr (l1_entry m l0B va) + 8 * (va / 2 ^ 21 % 512))

/-- Walk `va` down to a level-2 block descriptor: both upper levels must
be valid table descriptors (low bits 11) and level 2 must be a valid
block descriptor (low bits 01). -/
def walk2M (m : Nat → Nat) (l0B va : Nat) : Option Nat :=
  if l0_entry m l0B va % 4 = 3 then
    if l1_entry m l0B va % 4 = 3 then
      if l2_entry m l0B va % 4 = 1 then some (l2_entry m l0B va) else none
    else none
  else none

/-! ### fs.c - in-memory filesystem node pool (claim C9)
Nodes live in a static pool `node_pool[FS_MAX_NODES]`; C pointers become
pool indices (`Option Nat`, `none` = NULL for links), strings become
`List Char`, and the kmalloc-backed file contents become a ghost
`Option (List Char)`. -/

def FS_NAME_MAX : Nat := 32
def FS_MAX_NODES : Nat := 64
def FS_MAX_DATA : Nat := 4096

inductive fs_node_type_t where
  | FS_FILE
  | FS_DIR
deriving DecidableEq, Repr

structure fs_node_t where
  name : List Char
  type : fs_node_type_t
  parent : Option Nat
  children : Option Nat
  next_sibling : Option Nat
  data : Option (List Char)
  size : Nat
deriving DecidableEq, Repr

/-- The zeroed node `fs_init` fills the pool with. -/
def emptyNode : fs_node_t :=
  { name := []
    type := fs_node_type_t.FS_DIR
    parent := none
    children := none
    next_sibling := none
    data := none
    size := 0 }

/-- The fs.c statics: the pool, its cursor, and the root/cwd pointers
(as indices; they are only read after `fs_init` sets them). -/
structure FsState where
  node_pool : List fs_node_t
  nodes_used : Nat
  root : Nat
  cwd : Nat
deriving DecidableEq, Repr

def nodeAt (st : FsState) (i : Nat) : fs_node_t := st.node_pool.getD i emptyNode

def setNode (st : FsState) (i : Nat) (n : fs_node_t) : FsState :=
  { st with node_pool := st.node_pool.set i n }

/-- `fs_strcmp`: C strcmp over NUL-terminated strings; list end plays
the role of the terminator. -/
def fs_strcmp : List Char → List Char → Int
  | [], [] => 0
  | [], b :: _ => 0 - (b.toNat : Int)
  | a :: _, [] => (a.toNat : Int)
  | a :: as, b :: bs =>
    if a = b then fs_strcmp as bs else (a.toNat : Int) - (b.toNat : Int)

/-- `alloc_node`: hands out slot `nodes_used` and advances the cursor;
fails when the pool is full.  The name is truncated to
`FS_NAME_MAX - 1` characters as `fs_strncpy` does. -/
def alloc_node (st : FsState) (name : List Char) (ty : fs_node_type_t) :
    FsState × Option Nat :=
  if st.nodes_used ≥ FS_MAX_NODES then (st, none)
  else
    let idx := st.nodes_used
    let node : fs_node_t :=
      { name := name.take (FS_NAME_MAX - 1)
        type := ty
        parent := none
        children := none
        next_sibling := none
        data := none
        size := 0 }
    ({ st with
        node_pool := st.node_pool.set idx node
        nodes_used := idx + 1 }, some idx)

/-- `free_node`: releases the data buffer and blanks size and name; the
pool slot itself is NOT reclaimed (`nodes_used` is untouched). -/
def free_node (st : FsState) (i : Nat) : FsState :=
  setNode st i { nodeAt st i with data := none, size := 0, name := [] }

/-- `add_child`: pushes `child` on the front of `dir`'s children list. -/
def add_child (st : FsState) (dir child : Nat) : FsState :=
  let st1 := setNode st child
    { nodeAt st child with
        parent := some dir
        next_sibling := (nodeAt st dir).children }
  setNode st1 dir { nodeAt st1 dir with children := some child }

/-- Tail of the `remove_child` unlink walk: `p` is the predecessor whose
`next_sibling` is inspected; fuel bounds the sibling chain (the pool has
only `FS_MAX_NODES` nodes). -/
def remove_child_go (st : FsState) (child : Nat) : Nat → Nat → FsState
  | _, 0 => st
  | p, fuel + 1 =>
    match (nodeAt st p).next_sibling with
    | none => st
    | some q =>
      if q = child then
        let st1 := setNode st p
          { nodeAt st p with next_sibling := (nodeAt st child).next_sibling }
        setNode st1 child
          { nodeAt st1 child with next_sibling := none, parent := none }
      else remove_child_go st child q fuel

/-- `remove_child`: unlinks `child` from `dir`'s children list (first
occurrence), clearing its `next_sibling` and `parent` links. -/
def remove_child (st : FsState) (dir child : Nat) : FsState :=
  match (nodeAt st dir).children with
  | none => st
  | some h =>
    if h = child then
      let st1 := setNode st dir
        { nodeAt st dir with children := (nodeAt st child).next_sibling }
      setNode st1 child
        { nodeAt st1 child with next_sibling := none, parent := none }
    else remove_child_go st child h FS_MAX_NODES

/-- Child-list scan of `find_child`, fuelled by the pool size. -/
def find_child_go (st : FsState) (name : List Char) :
    Option Nat → Nat → Option Nat
  | none, _ => none
  | some _, 0 => none
  | some c, fuel + 1 =>
    if fs_strcmp (nodeAt st c).name name = 0 then some c
    else find_child_go st name (nodeAt st c).next_sibling fuel

/-- `find_child`: name lookup among a directory's children; NULL or
non-directory input gives NULL. -/
def find_child (st : FsState) (dir : Option Nat) (name : List Char) :
    Option Nat :=
  match dir with
  | none => none
  | some d =>
    if (nodeAt st d).type ≠ fs_node_type_t.FS_DIR then none
    else find_child_go st name (nodeAt st d).children FS_MAX_NODES

/-- `next_component`: skip leading slashes, read up to `maxlen - 1`
non-slash characters; returns the component and the unconsumed rest of
the path (the C version advances the `path` pointer the same way). -/
def next_component (path : List Char) (maxlen : Nat) :
    List Char × List Char :=
  let p := path.dropWhile (fun c => c = '/')
  let comp := (p.takeWhile (fun c => c ≠ '/')).take (maxlen - 1)
  (comp, p.drop comp.length)

/-- Component loop of `fs_resolve`.  Fuel is the path length plus one:
every iteration that does not exit consumes at least one character. -/
def resolve_go (st : FsState) : Nat → List Char → Nat → Option Nat
  | _, _, 0 => none
  | cur, path, fuel + 1 =>
    let (comp, rest) := next_component path FS_NAME_MAX
    if comp.length = 0 then some cur
    else if fs_strcmp comp ['.'] = 0 then resolve_go st cur rest fuel
    else if fs_strcmp comp ['.', '.'] = 0 then
      match (nodeAt st cur).parent with
      | some p => resolve_go st p rest fuel
      | none => resolve_go st cur rest fuel
    else
      match find_child st (some cur) comp with
      | none => none
      | some child => resolve_go st child rest fuel

/-- `fs_resolve`: empty path gives cwd; a leading slash starts at root. -/
def fs_resolve (st : FsState) (path : List Char) : Option Nat :=
  match path with
  | [] => some st.cwd
  | c :: rest =>
    if c = '/' then resolve_go st st.root rest (rest.length + 1)
    else resolve_go st st.cwd path (path.length + 1)

/-- Index of the last slash in a path, if any. -/
def lastSlashIdx (p : List Char) : Option Nat :=
  match p.reverse.findIdx? (fun c => c = '/') with
  | none => none
  | some j => some (p.length - 1 - j)

/-- Walk of `resolve_parent` toward the parent directory: repeat
`next_component` while the read position is still strictly before the
last slash (position `k`).  A missing or non-directory child fails. -/
def parent_walk (st : FsState) (p : List Char) (k : Nat) :
    Nat → Nat → Nat → Option Nat
  | _, _, 0 => none
  | cur, pos, fuel + 1 =>
    if pos < k then
      let (comp, rest) := next_component (p.drop pos) FS_NAME_MAX
      let newpos := p.length - rest.length
      if comp.length = 0 then some cur
      else if fs_strcmp comp ['.'] = 0 then parent_walk st p k cur newpos fuel
      else if fs_strcmp comp ['.', '.'] = 0 then
        match (nodeAt st cur).parent with
        | some q => parent_walk st p k q newpos fuel
        | none => parent_walk st p k cur newpos fuel
      else
        match find_child st (some cur) comp with
        | none => none
        | some child =>
          if (nodeAt st child).type ≠ fs_node_type_t.FS_DIR then none
          else parent_walk st p k child newpos fuel
    else some cur

/-- `resolve_parent`: returns the parent directory of `path` and the
final component (basename, truncated like `fs_strncpy`). -/
def resolve_parent (st : FsState) (path : List Char) :
    Option Nat × List Char :=
  let start : Nat × List Char :=
    match path with
    | c :: rest => if c = '/' then (st.root, rest) else (st.cwd, path)
    | [] => (st.cwd, [])
  let cur := start.1
  let p := start.2
  match lastSlashIdx p with
  | none => (some cur, p.take (FS_NAME_MAX - 1))
  | some k =>
    (parent_walk st p k cur 0 (p.length + 1),
     (p.drop (k + 1)).take (FS_NAME_MAX - 1))

/-- `fs_init`: zero the pool, then allocate the root directory (slot 0),
whose parent is itself; cwd starts at root. -/
def fs_init : FsState :=
  let st0 : FsState :=
    { node_pool := List.replicate FS_MAX_NODES emptyNode
      nodes_used := 0
      root := 0
      cwd := 0 }
  match alloc_node st0 ['/'] fs_node_type_t.FS_DIR with
  | (st1, some r) =>
    let st2 := setNode st1 r { nodeAt st1 r with parent := some r }
    { st2 with root := r, cwd := r }
  | (st1, none) => st1

/-- `fs_set_cwd`: only a directory may become the cwd. -/
def fs_set_cwd (st : FsState) (dir : Nat) : FsState :=
  if (nodeAt st dir).type = fs_node_type_t.FS_DIR then { st with cwd := dir }
  else st

/-- `fs_mkdir`: resolve the parent, reject a missing/non-dir parent, an
empty basename and duplicates, then allocate and link the directory. -/
def fs_mkdir (st : FsState) (path : List Char) : FsState × Option Nat :=
  match resolve_parent st path with
  | (none, _) => (st, none)
  | (some parent, basename) =>
    if (nodeAt st parent).type ≠ fs_node_type_t.FS_DIR then (st, none)
    else if basename = [] then (st, none)
    else if (find_child st (some parent) basename).isSome then (st, none)
    else
      match alloc_node st basename fs_node_type_t.FS_DIR with
      | (st1, none) => (st1, none)
      | (st1, some dir) => (add_child st1 parent dir, some dir)

/-- Unlink a node from its parent and free it - the shared tail of
`fs_rm` and `fs_rmdir` (`remove_child(node->parent, node); free_node
(node)`; the `none` branch mirrors the NULL parent pointer, which cannot
occur for a resolvable non-root node). -/
def fs_unlink_free (st : FsState) (node : Nat) : FsState × Int :=
  match (nodeAt st node).parent with
  | some par => (free_node (remove_child st par node) node, 0)
  | none => (free_node st node, 0)

/-- `fs_rmdir`: reject missing paths, files, the root, and non-empty
directories; else move cwd up if needed, unlink the node from its parent
and free it.  The slot is not reclaimed.  (In C `node->parent` is always
set for a resolvable non-root directory; the `none` branch mirrors the
NULL pointer and skips the unlink.) -/
def fs_rmdir (st : FsState) (path : List Char) : FsState × Int :=
  match fs_resolve st path with
  | none => (st, -1)
  | some node =>
    if (nodeAt st node).type ≠ fs_node_type_t.FS_DIR then (st, -1)
    else if node = st.root then (st, -1)
    else if (nodeAt st node).children.isSome then (st, -1)
    else
      fs_unlink_free
        (if node = st.cwd then
          { st with cwd := (nodeAt st node).parent.getD 0 }
        else st) node

/-- `fs_touch`: an existing node is returned as is; otherwise resolve
the parent and allocate a fresh file node there. -/
def fs_touch (st : FsState) (path : List Char) : FsState × Option Nat :=
  match fs_resolve st path with
  | some existing => (st, some existing)
  | none =>
    match resolve_parent st path with
    | (none, _) => (st, none)
    | (some parent, basename) =>
      if (nodeAt st parent).type ≠ fs_node_type_t.FS_DIR then (st, none)
      else if basename = [] then (st, none)
      else
        match alloc_node st basename fs_node_type_t.FS_FILE with
        | (st1, none) => (st1, none)
        | (st1, some file) => (add_child st1 parent file, some file)

/-- Body of `fs_write` once the file node is known: free the old buffer,
then store the (truncated) content.  The kmalloc'd buffer is the ghost
`data` field; allocation is not a failure mode of this model. -/
def fs_write_to (st : FsState) (file : Nat) (content : List Char) :
    FsState × Option Nat :=
  if (nodeAt st file).type ≠ fs_node_type_t.FS_FILE then (st, none)
  else
    let st1 := setNode st file { nodeAt st file with data := none, size := 0 }
    let len := min content.length FS_MAX_DATA
    if len > 0 then
      (setNode st1 file
        { nodeAt st1 file with data := some (content.take len), size := len },
       some file)
    else (st1, some file)

/-- `fs_write`: create the file if needed, then replace its content. -/
def fs_write (st : FsState) (path content : List Char) :
    FsState × Option Nat :=
  match fs_resolve st path with
  | some f => fs_write_to st f content
  | none =>
    match fs_touch st path with
    | (st1, none) => (st1, none)
    | (st1, some f) => fs_write_to st1 f content

/-- `fs_rm`: reject missing paths, directories and the root; else unlink
the file from its parent and free it.  The slot is not reclaimed. -/
def fs_rm (st : FsState) (path : List Char) : FsState × Int :=
  match fs_resolve st path with
  | none => (st, -1)
  | some node =>
    if (nodeAt st node).type = fs_node_type_t.FS_DIR then (st, -1)
    else if node = st.root then (st, -1)
    else fs_unlink_free st node

/-- The state-changing shell-reachable fs operations. -/
inductive FsOp where
  | mkdir (path : List Char)
  | touch (path : List Char)
  | write (path content : List Char)
  | rm (path : List Char)
  | rmdir (path : List Char)
  | setCwd (dir : Nat)
deriving DecidableEq, Repr

def applyOp (st : FsState) : FsOp → FsState
  | FsOp.mkdir p => (fs_mkdir st p).1
  | FsOp.touch p => (fs_touch st p).1
  | FsOp.write p c => (fs_write st p c).1
  | FsOp.rm p => (fs_rm st p).1
  | FsOp.rmdir p => (fs_rmdir st p).1
  | FsOp.setCwd d => fs_set_cwd st d

/-- A whole system lifetime: `fs_init` followed by any operations. -/
def runOps (ops : List FsOp) : FsState := ops.foldl applyOp fs_init

/-- One fs call moves `nodes_used` up by at most one, and only moves it
when the pool still has room. -/
def UsedStep (st st2 : FsState) : Prop :=
  st.nodes_used ≤ st2.nodes_used ∧ st2.nodes_used ≤ st.nodes_used + 1 ∧
  (st2.nodes_used = st.nodes_used + 1 → st.nodes_used < FS_MAX_NODES)

/-- Demonstration state for the pool claim: root, a directory and a file
with content. -/
def fsDemoSt : FsState :=
  runOps [FsOp.mkdir ['a'], FsOp.write ['/', 'a', '/', 'f'] ['h', 'i']]

def fsDemoPath : List Char := ['/', 'a', '/', 'f']

theorem wake_check_state_iff (tick : Nat) (pool : List task_t) (i : Nat) :
    stateAt (wake_check tick pool i) i = some task_state_t.ready ↔
      eligibleB tick pool i = true := by
  unfold wake_check eligibleB
  cases h : pool[i]? with
  | none => simp [stateAt, h]
  | some t =>
      have hlen : i < pool.length := by
        by_contra hge
        rw [List.getElem?_eq_none (by omega)] at h
        exact Option.noConfusion h
      by_cases hc : t.state = task_state_t.blocked ∧ t.sleep_until ≤ tick
      · simp only [if_pos hc, stateAt]
        rw [List.getElem?_set_self (by omega)]
        simp [hc.1, hc.2]
      · simp only [if_neg hc, stateAt, h]
        cases hs : t.state <;> simp_all

theorem wake_check_of_not_eligible {tick : Nat} {pool : List task_t} {i : Nat}
    (h : eligibleB tick pool i = false) : wake_check tick pool i = pool := by
  unfold wake_check
  unfold eligibleB at h
  cases hg : pool[i]? with
  | none => rfl
  | some t =>
      simp only [hg] at h ⊢
      rw [if_neg]
      intro hc
      simp [hc.1, hc.2] at h

theorem dequeue_eq_spec (tick : Nat) (pool : List task_t) (queue : List Nat) :
    dequeue_ready_task tick pool queue = dequeueSpec tick pool queue := by
  induction queue generalizing pool with
  | nil => rfl
  | cons i rest ih =>
      by_cases hp : eligibleB tick pool i = true
      · have hst : stateAt (wake_check tick pool i) i = some task_state_t.ready :=
          (wake_check_state_iff tick pool i).mpr hp
        simp [dequeue_ready_task, dequeueSpec, hst, List.findIdx?_cons, hp]
      · have hpf : eligibleB tick pool i = false := by
          cases hb : eligibleB tick pool i
          · rfl
          · exact absurd hb hp
        have hwk : wake_check tick pool i = pool := wake_check_of_not_eligible hpf
        have hst : ¬ stateAt (wake_check tick pool i) i = some task_state_t.ready := by
          rw [hwk]
          intro hcon
          exact hp ((wake_check_state_iff tick pool i).mp (by rw [hwk]; exact hcon))
        have hst2 : ¬ stateAt pool i = some task_state_t.ready := hwk ▸ hst
        simp only [dequeue_ready_task, hst, if_neg, hwk, ih]
        unfold dequeueSpec
        rw [List.findIdx?_cons, hpf]
        simp only [Bool.false_eq_true, if_false, List.findIdx?_succ]
        cases hr : rest.findIdx? (eligibleB tick pool) with
        | none => simp [hr, hst2]
        | some j => simp [hr, hst2]

/-- C1: `schedule_irq(old_sp)` behaves exactly as specified: when no task is
current it returns `old_sp` unchanged; otherwise it saves `old_sp` into the
current TCB, demotes a RUNNING current task to READY at the tail of the
ready queue, then dispatches the first queued task that is READY or has an
expired sleep deadline (waking it), returning its saved sp; when no such
task exists the previous task is marked RUNNING again, stays current, and
its sp is returned. -/
theorem schedule_irq_matches_spec (st : SchedState) (old_sp : Nat) :
    schedule_irq st old_sp = schedule_irqSpec st old_sp := by
  unfold schedule_irq schedule_irqSpec
  cases st.current_task with
  | none => rfl
  | some c => simp only [dequeue_eq_spec]

/-! ## Round-robin fairness (claim C2) -/

theorem stateAt_modifyAt_of_state_eq {pool : List task_t} {i j : Nat}
    {f : task_t → task_t} (hf : ∀ t, (f t).state = t.state) :
    stateAt (modifyAt pool i f) j = stateAt pool j := by
  unfold modifyAt
  cases hg : pool[i]? with
  | none => rfl
  | some t =>
      have hlen : i < pool.length := by
        by_contra hge
        rw [List.getElem?_eq_none (by omega)] at hg
        exact Option.noConfusion hg
      by_cases hij : j = i
      · subst hij
        unfold stateAt
        rw [List.getElem?_set_self hlen, hg]
        simp [hf]
      · unfold stateAt
        rw [List.getElem?_set_ne (by omega)]

theorem stateAt_setState_same {pool : List task_t} {i : Nat} {s : task_state_t}
    (h : (pool[i]?).isSome) : stateAt (setState pool i s) i = some s := by
  unfold setState modifyAt
  cases hg : pool[i]? with
  | none => rw [hg] at h; exact absurd h (by simp)
  | some t =>
      have hlen : i < pool.length := by
        by_contra hge
        rw [List.getElem?_eq_none (by omega)] at hg
        exact Option.noConfusion hg
      unfold stateAt
      rw [List.getElem?_set_self hlen]
      rfl

theorem stateAt_setState_other {pool : List task_t} {i j : Nat}
    {s : task_state_t} (h : j ≠ i) :
    stateAt (setState pool i s) j = stateAt pool j := by
  unfold setState modifyAt
  cases hg : pool[i]? with
  | none => rfl
  | some t =>
      unfold stateAt
      rw [List.getElem?_set_ne (by omega)]

theorem isSome_of_stateAt {pool : List task_t} {i : Nat} {s : task_state_t}
    (h : stateAt pool i = some s) : (pool[i]?).isSome = true := by
  unfold stateAt at h
  cases hg : pool[i]? with
  | none => rw [hg] at h; exact Option.noConfusion h
  | some t => simp

/-- Unfold `wake_check` once the pool lookup is known. -/
theorem wake_check_eq {tick : Nat} {pool : List task_t} {i : Nat} {tk : task_t}
    (hg : pool[i]? = some tk) :
    wake_check tick pool i =
      if tk.state = task_state_t.blocked ∧ tk.sleep_until ≤ tick then
        pool.set i { tk with state := task_state_t.ready }
      else pool := by
  unfold wake_check
  rw [hg]

/-- When the head of the queue is READY the dequeue scan returns it at once. -/
theorem dequeue_cons_of_ready {tick : Nat} {pool : List task_t} {i : Nat}
    {rest : List Nat} (h : stateAt pool i = some task_state_t.ready) :
    dequeue_ready_task tick pool (i :: rest) = (pool, rest, some i) := by
  have hwk : wake_check tick pool i = pool := by
    cases hg : pool[i]? with
    | none => unfold wake_check; rw [hg]
    | some tk =>
        have hts : tk.state = task_state_t.ready := by
          unfold stateAt at h
          rw [hg] at h
          simpa using h
        rw [wake_check_eq hg, if_neg]
        intro hcc
        rw [hts] at hcc
        exact absurd hcc.1 (by simp)
  unfold dequeue_ready_task
  rw [hwk, if_pos h]

/-- `schedule_irq` in a round-robin configuration rotates the ready queue. -/
theorem schedule_irq_rotate (st : SchedState) (old_sp : Nat) (c h : Nat)
    (t : List Nat)
    (hcur : st.current_task = some c)
    (hrun : stateAt st.task_pool c = some task_state_t.running)
    (hready : ∀ i ∈ h :: t, stateAt st.task_pool i = some task_state_t.ready)
    (hhc : h ≠ c)
    (hq : st.ready_queue = h :: t) :
    (schedule_irq st old_sp).1 =
      { st with
          task_pool :=
            setState
              (setState (modifyAt st.task_pool c (fun tk => { tk with sp := old_sp }))
                c task_state_t.ready)
              h task_state_t.running
          ready_queue := t ++ [c]
          current_task := some h } := by
  unfold schedule_irq
  rw [hcur]
  simp only
  have hst0 : ∀ j, stateAt (modifyAt st.task_pool c (fun tk => { tk with sp := old_sp })) j =
      stateAt st.task_pool j := by
    intro j
    exact stateAt_modifyAt_of_state_eq (by intro x; rfl)
  have hcond : stateAt (modifyAt st.task_pool c (fun tk => { tk with sp := old_sp })) c =
      some task_state_t.running := by
    rw [hst0]; exact hrun
  rw [if_pos hcond]
  have hready1 : stateAt
      (setState (modifyAt st.task_pool c (fun tk => { tk with sp := old_sp }))
        c task_state_t.ready) h = some task_state_t.ready := by
    rw [stateAt_setState_other hhc, hst0]
    exact hready h (by simp)
  rw [hq]
  unfold enqueue_task
  rw [List.cons_append, dequeue_cons_of_ready hready1]

/-- One timer tick in a round-robin configuration rotates the queue: the
head task is dispatched and the demoted current task joins the tail. -/
theorem rr_step {st : SchedState} {c h : Nat} {t : List Nat}
    (hcfg : RRConfig st c (h :: t)) :
    RRConfig (timerTick st) h (t ++ [c]) := by
  obtain ⟨hcur, hrun, hready, hnodup, hq⟩ := hcfg
  have hhc : h ≠ c := by
    intro he
    subst he
    simp [List.nodup_cons] at hnodup
  have hct : c ∉ t ∧ h ∉ t := by
    simp [List.nodup_cons] at hnodup
    exact ⟨hnodup.1.2, hnodup.2.1⟩
  have hkey := schedule_irq_rotate
    { st with tick_count := st.tick_count + 1 }
    (spAt st.task_pool ((st.current_task).getD 0)) c h t hcur hrun hready hhc hq
  unfold timerTick
  rw [hkey]
  set pool0 := modifyAt st.task_pool c
    (fun tk => { tk with sp := spAt st.task_pool ((st.current_task).getD 0) })
    with hpool0
  have hst0 : ∀ j, stateAt pool0 j = stateAt st.task_pool j := by
    intro j
    exact stateAt_modifyAt_of_state_eq (by intro x; rfl)
  have hready1 : stateAt (setState pool0 c task_state_t.ready) h =
      some task_state_t.ready := by
    rw [stateAt_setState_other hhc, hst0]
    exact hready h (by simp)
  refine ⟨rfl, ?_, ?_, ?_, rfl⟩
  · exact stateAt_setState_same (isSome_of_stateAt hready1)
  · intro i hi
    rcases List.mem_append.mp hi with hit | hic
    · have hih : i ≠ h := fun he => hct.2 (he ▸ hit)
      have hic2 : i ≠ c := fun he => hct.1 (he ▸ hit)
      rw [stateAt_setState_other hih, stateAt_setState_other hic2, hst0]
      exact hready i (by simp [hit])
    · have hicc : i = c := by simpa using hic
      rw [hicc, stateAt_setState_other (Ne.symm hhc)]
      exact stateAt_setState_same (isSome_of_stateAt (hst0 c ▸ hrun))
  · simp only [List.nodup_cons] at hnodup ⊢
    refine ⟨?_, ?_⟩
    · intro hmem
      rcases List.mem_append.mp hmem with h1 | h2
      · exact hct.2 h1
      · exact hhc (by simpa using h2)
    · exact List.Nodup.append hnodup.2.2 (by simp)
        (by
          intro a ha hb
          simp at hb
          subst hb
          exact hct.1 ha)

/-- After `i + 1` ticks from a round-robin configuration, the task at queue
position `i` is the current task (in some rotated configuration). -/
theorem rr_reach : ∀ (i : Nat) (st : SchedState) (c : Nat) (q : List Nat),
    RRConfig st c q → ∀ (hi : i < q.length),
    ∃ q2, RRConfig (timerRun st (i + 1)) (q.get ⟨i, hi⟩) q2 := by
  intro i
  induction i with
  | zero =>
      intro st c q hcfg hi
      cases q with
      | nil => simp at hi
      | cons h t =>
          exact ⟨t ++ [c], rr_step hcfg⟩
  | succ n ih =>
      intro st c q hcfg hi
      cases q with
      | nil => simp at hi
      | cons h t =>
          have hstep := rr_step hcfg
          have hlen : n < (t ++ [c]).length := by
            simp at hi ⊢
            omega
          have hrec := ih (timerTick st) h (t ++ [c]) hstep hlen
          have hnt : n < t.length := by
            simp at hi
            omega
          have hget : (t ++ [c]).get ⟨n, hlen⟩ = (h :: t).get ⟨n + 1, hi⟩ := by
            simp only [List.get_eq_getElem, List.getElem_cons_succ]
            exact List.getElem_append_left hnt
          rw [hget] at hrec
          exact hrec

/-- C2: round-robin fairness.  In a configuration with `k` READY queued
tasks that never block (all queued tasks READY, current task RUNNING, no
duplicates), the task at queue position `i` is dispatched exactly at tick
`i + 1` (strict FIFO by insertion order), and hence every one of the `k`
tasks is selected as the RUNNING task within any window of `2k` consecutive
timer ticks starting at such a configuration. -/
theorem round_robin_fairness (st : SchedState) (c : Nat) (q : List Nat)
    (hcfg : RRConfig st c q) :
    (∀ i (hi : i < q.length),
        (timerRun st (i + 1)).current_task = some (q.get ⟨i, hi⟩) ∧
        stateAt (timerRun st (i + 1)).task_pool (q.get ⟨i, hi⟩) =
          some task_state_t.running) ∧
    (∀ x ∈ q, ∃ j, j < 2 * q.length ∧
        (timerRun st (j + 1)).current_task = some x ∧
        stateAt (timerRun st (j + 1)).task_pool x = some task_state_t.running) := by
  constructor
  · intro i hi
    obtain ⟨q2, hc2⟩ := rr_reach i st c q hcfg hi
    exact ⟨hc2.1, hc2.2.1⟩
  · intro x hx
    obtain ⟨⟨i, hi⟩, hxe⟩ := List.mem_iff_get.mp hx
    obtain ⟨q2, hc2⟩ := rr_reach i st c q hcfg hi
    refine ⟨i, by omega, ?_, ?_⟩
    · rw [← hxe]
      exact hc2.1
    · rw [← hxe]
      exact hc2.2.1

/-- Witness for C2 at a concrete three-task configuration. -/
theorem round_robin_fairness_witness :
    RRConfig rrW 0 [1, 2] ∧
    ((∀ i (hi : i < ([1, 2] : List Nat).length),
        (timerRun rrW (i + 1)).current_task = some (([1, 2] : List Nat).get ⟨i, hi⟩) ∧
        stateAt (timerRun rrW (i + 1)).task_pool (([1, 2] : List Nat).get ⟨i, hi⟩) =
          some task_state_t.running) ∧
    (∀ x ∈ ([1, 2] : List Nat), ∃ j, j < 2 * ([1, 2] : List Nat).length ∧
        (timerRun rrW (j + 1)).current_task = some x ∧
        stateAt (timerRun rrW (j + 1)).task_pool x = some task_state_t.running)) :=
  ⟨by decide, round_robin_fairness rrW 0 [1, 2] (by decide)⟩

/-! ## task_kill (claim C4) -/

/-- C4: `task_kill(id)` fails (returning -1 with the state unchanged) when
the first live task carrying `id` is the shell slot 0 — in particular for
id 0 itself — or is the current task, or when no live task carries `id`;
for a live, non-shell, non-current target it unlinks the target from the
ready queue, marks it DEAD, and returns 0.  The hypotheses are the
scheduler invariants: slot 0 holds the live shell with id 0, and live
slots have distinct ids. -/
theorem task_kill_spec (st : SchedState)
    (hlen0 : 0 < st.task_pool.length)
    (hid0 : (st.task_pool.getD 0 dfltTask).id = 0)
    (hlive0 : (st.task_pool.getD 0 dfltTask).state ≠ task_state_t.dead)
    (hinj : liveIdsInjective st.task_pool) :
    task_kill st 0 = (st, -1) ∧
    (∀ (tid i : Nat) (ti : task_t), st.task_pool[i]? = some ti → ti.id = tid →
        ti.state ≠ task_state_t.dead →
        (st.current_task = some i → task_kill st tid = (st, -1)) ∧
        (i ≠ 0 → st.current_task ≠ some i →
          task_kill st tid =
            ({ st with
                task_pool := setState st.task_pool i task_state_t.dead
                ready_queue := remove_from_queue st.ready_queue i }, 0))) ∧
    (∀ tid : Nat, (∀ (i : Nat) (ti : task_t), st.task_pool[i]? = some ti → ti.id = tid →
        ti.state = task_state_t.dead) →
      task_kill st tid = (st, -1)) := by
  have hget0 : st.task_pool.getD 0 dfltTask = st.task_pool.get ⟨0, hlen0⟩ := by
    simp [List.getD_eq_getElem?_getD, List.getElem?_eq_getElem hlen0]
  refine ⟨?_, ?_, ?_⟩
  · have hfind : st.task_pool.findIdx?
        (fun t => t.id == (0 : Nat) && !(t.state == task_state_t.dead)) = some 0 := by
      rw [List.findIdx?_eq_some_iff_getElem]
      refine ⟨hlen0, ?_, ?_⟩
      · rw [hget0] at hid0 hlive0
        simp only [List.get_eq_getElem] at hid0 hlive0
        simp [hid0, hlive0]
      · intro j hj
        omega
    unfold task_kill
    rw [hfind]
    simp
  · intro tid i ti hg hid hlive
    have hilen : i < st.task_pool.length := by
      by_contra hge
      rw [List.getElem?_eq_none (by omega)] at hg
      exact Option.noConfusion hg
    have hgi : st.task_pool.get ⟨i, hilen⟩ = ti := by
      have := List.getElem?_eq_getElem hilen
      rw [hg] at this
      simpa using this.symm
    have hpi : (fun t : task_t => t.id == tid && !(t.state == task_state_t.dead)) ti = true := by
      simp only [Bool.and_eq_true, beq_iff_eq, Bool.not_eq_true', beq_eq_false_iff_ne]
      exact ⟨hid, hlive⟩
    have hmem : ti ∈ st.task_pool := hgi ▸ List.get_mem st.task_pool i hilen
    have hsome := @List.findIdx?_eq_some_of_exists task_t st.task_pool
      (fun t : task_t => t.id == tid && !(t.state == task_state_t.dead)) ⟨ti, hmem, hpi⟩
    obtain ⟨hjlen, hpj, hmin⟩ := List.findIdx?_eq_some_iff_getElem.mp hsome
    have hpj2 : (st.task_pool.get ⟨st.task_pool.findIdx
        (fun t => t.id == tid && !(t.state == task_state_t.dead)), hjlen⟩).id = tid ∧
        (st.task_pool.get ⟨st.task_pool.findIdx
          (fun t => t.id == tid && !(t.state == task_state_t.dead)), hjlen⟩).state ≠
          task_state_t.dead := by
      simp only [List.get_eq_getElem]
      simpa using hpj
    have hji : st.task_pool.findIdx
        (fun t => t.id == tid && !(t.state == task_state_t.dead)) = i := by
      apply hinj _ hjlen _ hilen hpj2.2 (by rw [hgi]; exact hlive)
      rw [hgi, hpj2.1, hid]
    constructor
    · intro hcur
      unfold task_kill
      simp only [hsome, hji]
      by_cases hi0 : i = 0
      · rw [if_pos hi0]
      · rw [if_neg hi0, if_pos hcur]
    · intro hi0 hcur
      unfold task_kill
      simp only [hsome, hji]
      rw [if_neg hi0, if_neg hcur]
  · intro tid hdead
    have hnone : st.task_pool.findIdx?
        (fun t => t.id == tid && !(t.state == task_state_t.dead)) = none := by
      rw [List.findIdx?_eq_none_iff]
      intro x hx
      obtain ⟨n, hn, hxg⟩ := List.mem_iff_getElem.mp hx
      have hgx : st.task_pool[n]? = some x := by
        rw [List.getElem?_eq_getElem hn, hxg]
      by_cases hxid : x.id = tid
      · have := hdead n x hgx hxid
        simp [this]
      · simp [hxid]
    unfold task_kill
    rw [hnone]

theorem mem_of_getElem_some {α : Type} {l : List α} {i : Nat} {a : α}
    (h : l[i]? = some a) : a ∈ l := by
  have hi : i < l.length := by
    by_contra hge
    rw [List.getElem?_eq_none (by omega)] at h
    exact Option.noConfusion h
  have := List.getElem?_eq_getElem hi
  rw [h] at this
  have ha : l.get ⟨i, hi⟩ = a := by simpa using this.symm
  exact ha ▸ List.get_mem l i hi

/-- Witness for C4: on the concrete state `killW`, killing id 0 fails,
killing the READY non-current task with id 2 succeeds and marks it DEAD,
and killing the absent id 7 fails. -/
theorem task_kill_spec_witness :
    (0 < killW.task_pool.length ∧ (killW.task_pool.getD 0 dfltTask).id = 0 ∧
      (killW.task_pool.getD 0 dfltTask).state ≠ task_state_t.dead ∧
      liveIdsInjective killW.task_pool) ∧
    task_kill killW 0 = (killW, -1) ∧
    task_kill killW 2 =
      ({ killW with
          task_pool := setState killW.task_pool 2 task_state_t.dead
          ready_queue := remove_from_queue killW.ready_queue 2 }, 0) ∧
    task_kill killW 7 = (killW, -1) := by
  have h := task_kill_spec killW (by decide) (by decide) (by decide) (by decide)
  refine ⟨⟨by decide, by decide, by decide, by decide⟩, h.1, ?_, ?_⟩
  · exact (h.2.1 2 2
      { sp := 0, state := task_state_t.ready, id := 2, name := "b", sleep_until := 0 }
      (by decide) rfl (by decide)).2 (by decide) (by decide)
  · refine h.2.2 7 ?_
    intro i ti hg hid
    have hmem : ti ∈ killW.task_pool := mem_of_getElem_some hg
    simp only [killW, List.mem_cons, List.mem_singleton] at hmem
    rcases hmem with h1 | h2 | h3 | h4
    · rw [h1] at hid
      exact absurd hid (by decide)
    · rw [h2] at hid
      exact absurd hid (by decide)
    · rw [h3] at hid
      exact absurd hid (by decide)
    · exact absurd h4 (by simp)

/-! ## task_sleep and the wake-up bound (claim C3) -/

theorem getElem_modifyAt_self {pool : List task_t} {i : Nat} {t : task_t}
    {f : task_t → task_t} (hg : pool[i]? = some t) :
    (modifyAt pool i f)[i]? = some (f t) := by
  have hlen : i < pool.length := by
    by_contra hge
    rw [List.getElem?_eq_none (by omega)] at hg
    exact Option.noConfusion hg
  unfold modifyAt
  rw [hg]
  rw [List.getElem?_set_self hlen]

theorem sleepAt_modifyAt_of_sleep_eq {pool : List task_t} {i j : Nat}
    {f : task_t → task_t} (hf : ∀ t, (f t).sleep_until = t.sleep_until) :
    sleepAt (modifyAt pool i f) j = sleepAt pool j := by
  unfold modifyAt
  cases hg : pool[i]? with
  | none => rfl
  | some t =>
      have hlen : i < pool.length := by
        by_contra hge
        rw [List.getElem?_eq_none (by omega)] at hg
        exact Option.noConfusion hg
      by_cases hij : j = i
      · subst hij
        unfold sleepAt
        rw [List.getElem?_set_self hlen, hg]
        simp [hf]
      · unfold sleepAt
        rw [List.getElem?_set_ne (by omega)]

theorem sleepAt_setState {pool : List task_t} {i j : Nat} {s : task_state_t} :
    sleepAt (setState pool i s) j = sleepAt pool j :=
  sleepAt_modifyAt_of_sleep_eq (fun _ => rfl)

theorem timerRun_succ_outer (st : SchedState) (n : Nat) :
    timerRun st (n + 1) = timerTick (timerRun st n) := by
  induction n generalizing st with
  | zero => rfl
  | succ k ih =>
      show timerRun (timerTick st) (k + 1) = _
      rw [ih (timerTick st)]
      rfl

theorem eligibleB_of_ready {tick : Nat} {pool : List task_t} {i : Nat}
    (h : stateAt pool i = some task_state_t.ready) :
    eligibleB tick pool i = true := by
  unfold eligibleB
  unfold stateAt at h
  cases hg : pool[i]? with
  | none => rw [hg] at h; exact Option.noConfusion h
  | some t =>
      rw [hg] at h
      have : t.state = task_state_t.ready := by simpa using h
      simp [this]

theorem eligibleB_false_of_blocked_late {tick : Nat} {pool : List task_t}
    {i d : Nat} (hb : stateAt pool i = some task_state_t.blocked)
    (hd : sleepAt pool i = some d) (hlt : tick < d) :
    eligibleB tick pool i = false := by
  unfold eligibleB
  unfold stateAt at hb
  unfold sleepAt at hd
  cases hg : pool[i]? with
  | none => rfl
  | some t =>
      rw [hg] at hb hd
      have hbs : t.state = task_state_t.blocked := by simpa using hb
      have hds : t.sleep_until = d := by simpa using hd
      simp [hbs, hds]
      omega

theorem eligibleB_of_blocked_due {tick : Nat} {pool : List task_t}
    {i d : Nat} (hb : stateAt pool i = some task_state_t.blocked)
    (hd : sleepAt pool i = some d) (hle : d ≤ tick) :
    eligibleB tick pool i = true := by
  unfold eligibleB
  unfold stateAt at hb
  unfold sleepAt at hd
  cases hg : pool[i]? with
  | none => rw [hg] at hb; exact Option.noConfusion hb
  | some t =>
      rw [hg] at hb hd
      have hbs : t.state = task_state_t.blocked := by simpa using hb
      have hds : t.sleep_until = d := by simpa using hd
      simp [hbs, hds]
      omega

theorem dequeue_cons_of_eligible {tick : Nat} {pool : List task_t} {i : Nat}
    {rest : List Nat} (hp : eligibleB tick pool i = true) :
    dequeue_ready_task tick pool (i :: rest) =
      (wake_check tick pool i, rest, some i) := by
  have hst := (wake_check_state_iff tick pool i).mpr hp
  unfold dequeue_ready_task
  rw [if_pos hst]

theorem dequeue_cons_of_not_eligible {tick : Nat} {pool : List task_t}
    {i : Nat} {rest : List Nat} (hp : eligibleB tick pool i = false) :
    dequeue_ready_task tick pool (i :: rest) =
      ((dequeue_ready_task tick pool rest).1,
        i :: (dequeue_ready_task tick pool rest).2.1,
        (dequeue_ready_task tick pool rest).2.2) := by
  have hwk := wake_check_of_not_eligible hp
  have hst : ¬ stateAt (wake_check tick pool i) i = some task_state_t.ready := by
    intro hc
    rw [(wake_check_state_iff tick pool i).mp hc] at hp
    exact Bool.noConfusion hp
  have hst2 : ¬ stateAt pool i = some task_state_t.ready := by
    rw [← hwk]
    exact hst
  conv_lhs => unfold dequeue_ready_task
  rw [hwk, if_neg hst2]

/-- First tick after `task_sleep`: the sleeper is current but BLOCKED, so it
is not demoted; the shell at the queue head is READY and dispatched. -/
theorem schedule_irq_sleep_first (st : SchedState) (old iS iSh : Nat)
    (hcur : st.current_task = some iS)
    (hbS : stateAt st.task_pool iS = some task_state_t.blocked)
    (hrSh : stateAt st.task_pool iSh = some task_state_t.ready)
    (hq : st.ready_queue = [iSh, iS]) :
    (schedule_irq st old).1 =
      { st with
          task_pool :=
            setState (modifyAt st.task_pool iS (fun tk => { tk with sp := old }))
              iSh task_state_t.running
          ready_queue := [iS]
          current_task := some iSh } := by
  unfold schedule_irq
  rw [hcur]
  simp only
  have hstP : ∀ j, stateAt (modifyAt st.task_pool iS (fun tk => { tk with sp := old })) j =
      stateAt st.task_pool j :=
    fun j => stateAt_modifyAt_of_state_eq (fun x => rfl)
  have hnotrun : ¬ stateAt (modifyAt st.task_pool iS (fun tk => { tk with sp := old })) iS =
      some task_state_t.running := by
    rw [hstP, hbS]
    simp
  rw [if_neg hnotrun, hq,
    dequeue_cons_of_ready (by rw [hstP]; exact hrSh)]

/-- A tick with the shell current and RUNNING and only the sleeper queued,
before the deadline: the sleeper is skipped and the shell is re-dispatched. -/
theorem schedule_irq_sleep_shell_early (st : SchedState) (old iS iSh d : Nat)
    (hcur : st.current_task = some iSh)
    (hrun : stateAt st.task_pool iSh = some task_state_t.running)
    (hbS : stateAt st.task_pool iS = some task_state_t.blocked)
    (hdS : sleepAt st.task_pool iS = some d)
    (hne : iS ≠ iSh)
    (hq : st.ready_queue = [iS])
    (hlt : st.tick_count < d) :
    (schedule_irq st old).1 =
      { st with
          task_pool :=
            setState
              (setState (modifyAt st.task_pool iSh (fun tk => { tk with sp := old }))
                iSh task_state_t.ready)
              iSh task_state_t.running
          ready_queue := [iS]
          current_task := some iSh } := by
  unfold schedule_irq
  rw [hcur]
  simp only
  have hstP : ∀ j, stateAt (modifyAt st.task_pool iSh (fun tk => { tk with sp := old })) j =
      stateAt st.task_pool j :=
    fun j => stateAt_modifyAt_of_state_eq (fun x => rfl)
  have hrun1 : stateAt (modifyAt st.task_pool iSh (fun tk => { tk with sp := old })) iSh =
      some task_state_t.running := by
    rw [hstP]
    exact hrun
  rw [if_pos hrun1, hq]
  unfold enqueue_task
  rw [List.cons_append, List.nil_append]
  have hbS1 : stateAt (setState
      (modifyAt st.task_pool iSh (fun tk => { tk with sp := old }))
      iSh task_state_t.ready) iS = some task_state_t.blocked := by
    rw [stateAt_setState_other hne, hstP]
    exact hbS
  have hdS1 : sleepAt (setState
      (modifyAt st.task_pool iSh (fun tk => { tk with sp := old }))
      iSh task_state_t.ready) iS = some d := by
    rw [sleepAt_setState,
      sleepAt_modifyAt_of_sleep_eq (f := fun tk => { tk with sp := old }) (fun x => rfl)]
    exact hdS
  have hrSh1 : stateAt (setState
      (modifyAt st.task_pool iSh (fun tk => { tk with sp := old }))
      iSh task_state_t.ready) iSh = some task_state_t.ready :=
    stateAt_setState_same (isSome_of_stateAt hrun1)
  rw [dequeue_cons_of_not_eligible (eligibleB_false_of_blocked_late hbS1 hdS1 hlt),
    dequeue_cons_of_ready hrSh1]

/-- A tick with the shell current and only the sleeper queued, at or after
the deadline: the sleeper is woken and dispatched. -/
theorem schedule_irq_sleep_shell_wake (st : SchedState) (old iS iSh d : Nat)
    (hcur : st.current_task = some iSh)
    (hrun : stateAt st.task_pool iSh = some task_state_t.running)
    (hbS : stateAt st.task_pool iS = some task_state_t.blocked)
    (hdS : sleepAt st.task_pool iS = some d)
    (hne : iS ≠ iSh)
    (hq : st.ready_queue = [iS])
    (hge : d ≤ st.tick_count) :
    (schedule_irq st old).1 =
      { st with
          task_pool :=
            setState
              (wake_check st.tick_count
                (setState (modifyAt st.task_pool iSh (fun tk => { tk with sp := old }))
                  iSh task_state_t.ready)
                iS)
              iS task_state_t.running
          ready_queue := [iSh]
          current_task := some iS } := by
  unfold schedule_irq
  rw [hcur]
  simp only
  have hstP : ∀ j, stateAt (modifyAt st.task_pool iSh (fun tk => { tk with sp := old })) j =
      stateAt st.task_pool j :=
    fun j => stateAt_modifyAt_of_state_eq (fun x => rfl)
  have hrun1 : stateAt (modifyAt st.task_pool iSh (fun tk => { tk with sp := old })) iSh =
      some task_state_t.running := by
    rw [hstP]
    exact hrun
  rw [if_pos hrun1, hq]
  unfold enqueue_task
  rw [List.cons_append, List.nil_append]
  have hbS1 : stateAt (setState
      (modifyAt st.task_pool iSh (fun tk => { tk with sp := old }))
      iSh task_state_t.ready) iS = some task_state_t.blocked := by
    rw [stateAt_setState_other hne, hstP]
    exact hbS
  have hdS1 : sleepAt (setState
      (modifyAt st.task_pool iSh (fun tk => { tk with sp := old }))
      iSh task_state_t.ready) iS = some d := by
    rw [sleepAt_setState,
      sleepAt_modifyAt_of_sleep_eq (f := fun tk => { tk with sp := old }) (fun x => rfl)]
    exact hdS
  rw [dequeue_cons_of_eligible (eligibleB_of_blocked_due hbS1 hdS1 hge)]

theorem stateAt_setSp {pool : List task_t} {i j v : Nat} :
    stateAt (modifyAt pool i (fun tk => { tk with sp := v })) j = stateAt pool j :=
  stateAt_modifyAt_of_state_eq (fun _ => rfl)

theorem sleepAt_setSp {pool : List task_t} {i j v : Nat} :
    sleepAt (modifyAt pool i (fun tk => { tk with sp := v })) j = sleepAt pool j :=
  sleepAt_modifyAt_of_sleep_eq (fun _ => rfl)

/-- C3 (amended): `task_sleep(m)` at tick `t` sets `sleep_until` to
`t + ceil(m/100)` and the state to BLOCKED, re-enqueueing the caller.  In
the scenario where exactly one other task (the shell) is READY and never
blocks, the sleeper stays BLOCKED for every tick before
`max(ceil(m/100), 2)` and becomes RUNNING exactly at tick
`max(ceil(m/100), 2)` after `t`; for `m ≥ 1` this lies within the claimed
window from `ceil(m/100)` to `ceil(m/100)+1` ticks.  (With two or more
competing READY tasks the upper bound fails — see the counterexample.) -/
theorem task_sleep_bounds (st : SchedState) (ms iS iSh : Nat) (tS tSh : task_t)
    (hcur : st.current_task = some iS)
    (hgS : st.task_pool[iS]? = some tS)
    (_hrunS : tS.state = task_state_t.running)
    (hgSh : st.task_pool[iSh]? = some tSh)
    (hreadySh : tSh.state = task_state_t.ready)
    (hne : iSh ≠ iS)
    (hq : st.ready_queue = [iSh])
    (hs1 : 1 ≤ (ms + 99) / 100) :
    stateAt (task_sleep st ms).task_pool iS = some task_state_t.blocked ∧
    sleepAt (task_sleep st ms).task_pool iS =
      some (st.tick_count + (ms + 99) / 100) ∧
    (task_sleep st ms).ready_queue = st.ready_queue ++ [iS] ∧
    (∀ j, j < max ((ms + 99) / 100) 2 →
      stateAt (timerRun (task_sleep st ms) j).task_pool iS =
        some task_state_t.blocked) ∧
    ((timerRun (task_sleep st ms) (max ((ms + 99) / 100) 2)).current_task =
        some iS ∧
      stateAt (timerRun (task_sleep st ms) (max ((ms + 99) / 100) 2)).task_pool
        iS = some task_state_t.running) ∧
    (ms + 99) / 100 ≤ max ((ms + 99) / 100) 2 ∧
    max ((ms + 99) / 100) 2 ≤ (ms + 99) / 100 + 1 := by
  have hneIS : iS ≠ iSh := Ne.symm hne
  have hst1 : task_sleep st ms =
      { st with
          task_pool := modifyAt st.task_pool iS
            (fun tk => { tk with
                sleep_until := st.tick_count + (ms + 99) / 100
                state := task_state_t.blocked })
          ready_queue := enqueue_task st.ready_queue iS } := by
    unfold task_sleep
    rw [hcur]
  have hb1 : stateAt (task_sleep st ms).task_pool iS = some task_state_t.blocked := by
    rw [hst1]
    unfold stateAt
    rw [getElem_modifyAt_self hgS]
    rfl
  have hd1 : sleepAt (task_sleep st ms).task_pool iS =
      some (st.tick_count + (ms + 99) / 100) := by
    rw [hst1]
    unfold sleepAt
    rw [getElem_modifyAt_self hgS]
    rfl
  have hsh1 : stateAt (task_sleep st ms).task_pool iSh = some task_state_t.ready := by
    rw [hst1]
    unfold stateAt modifyAt
    rw [hgS, List.getElem?_set_ne hneIS, hgSh]
    simp [hreadySh]
  have hq1 : (task_sleep st ms).ready_queue = [iSh, iS] := by
    rw [hst1]
    show enqueue_task st.ready_queue iS = _
    rw [hq]
    rfl
  have hcur1 : (task_sleep st ms).current_task = some iS := by
    rw [hst1]
    exact hcur
  have htick1 : (task_sleep st ms).tick_count = st.tick_count := by
    rw [hst1]
  have hbase : SleepCfg iS iSh (st.tick_count + (ms + 99) / 100)
      (timerRun (task_sleep st ms) 1) ∧
      (timerRun (task_sleep st ms) 1).tick_count = st.tick_count + 1 := by
    have hkey := schedule_irq_sleep_first
      { task_sleep st ms with tick_count := (task_sleep st ms).tick_count + 1 }
      (spAt (task_sleep st ms).task_pool (((task_sleep st ms).current_task).getD 0))
      iS iSh hcur1 hb1 hsh1 hq1
    rw [show timerRun (task_sleep st ms) 1 = timerTick (task_sleep st ms) from rfl,
      show timerTick (task_sleep st ms) =
        (schedule_irq
          { task_sleep st ms with tick_count := (task_sleep st ms).tick_count + 1 }
          (spAt (task_sleep st ms).task_pool
            (((task_sleep st ms).current_task).getD 0))).1 from rfl,
      hkey]
    refine ⟨⟨rfl, ?_, ?_, ?_, rfl⟩, ?_⟩
    · apply stateAt_setState_same
      apply isSome_of_stateAt
      rw [stateAt_setSp]
      exact hsh1
    · rw [stateAt_setState_other hneIS, stateAt_setSp]
      exact hb1
    · rw [sleepAt_setState, sleepAt_setSp]
      exact hd1
    · show (task_sleep st ms).tick_count + 1 = st.tick_count + 1
      rw [htick1]
  have hchain : ∀ j, 1 ≤ j → j < max ((ms + 99) / 100) 2 →
      SleepCfg iS iSh (st.tick_count + (ms + 99) / 100)
        (timerRun (task_sleep st ms) j) ∧
      (timerRun (task_sleep st ms) j).tick_count = st.tick_count + j := by
    intro j
    induction j with
    | zero => omega
    | succ k ih =>
        intro h1 hlt
        by_cases hk0 : k = 0
        · subst hk0
          exact hbase
        · have hk1 : 1 ≤ k := by omega
          have hklt : k < max ((ms + 99) / 100) 2 := by omega
          obtain ⟨⟨hc1, hc2, hc3, hc4, hc5⟩, htk⟩ := ih hk1 hklt
          have hkey := schedule_irq_sleep_shell_early
            { timerRun (task_sleep st ms) k with
                tick_count := (timerRun (task_sleep st ms) k).tick_count + 1 }
            (spAt (timerRun (task_sleep st ms) k).task_pool
              (((timerRun (task_sleep st ms) k).current_task).getD 0))
            iS iSh (st.tick_count + (ms + 99) / 100) hc1 hc2 hc3 hc4 hneIS hc5
            (by
              show (timerRun (task_sleep st ms) k).tick_count + 1 <
                st.tick_count + (ms + 99) / 100
              rw [htk]
              omega)
          rw [timerRun_succ_outer,
            show timerTick (timerRun (task_sleep st ms) k) =
              (schedule_irq
                { timerRun (task_sleep st ms) k with
                    tick_count := (timerRun (task_sleep st ms) k).tick_count + 1 }
                (spAt (timerRun (task_sleep st ms) k).task_pool
                  (((timerRun (task_sleep st ms) k).current_task).getD 0))).1 from rfl,
            hkey]
          refine ⟨⟨rfl, ?_, ?_, ?_, rfl⟩, ?_⟩
          · apply stateAt_setState_same
            apply isSome_of_stateAt
            apply stateAt_setState_same
            apply isSome_of_stateAt
            rw [stateAt_setSp]
            exact hc2
          · rw [stateAt_setState_other hneIS, stateAt_setState_other hneIS,
              stateAt_setSp]
            exact hc3
          · rw [sleepAt_setState, sleepAt_setState, sleepAt_setSp]
            exact hc4
          · show (timerRun (task_sleep st ms) k).tick_count + 1 = st.tick_count + (k + 1)
            rw [htk]
            omega
  refine ⟨hb1, hd1, by rw [hst1]; rfl, ?_, ?_, by omega, by omega⟩
  · intro j hj
    by_cases hj0 : j = 0
    · subst hj0
      exact hb1
    · exact (hchain j (by omega) hj).1.2.2.1
  · have hm2 : 1 ≤ max ((ms + 99) / 100) 2 - 1 := by omega
    have hmlt : max ((ms + 99) / 100) 2 - 1 < max ((ms + 99) / 100) 2 := by omega
    obtain ⟨⟨hc1, hc2, hc3, hc4, hc5⟩, htk⟩ :=
      hchain (max ((ms + 99) / 100) 2 - 1) hm2 hmlt
    have hkey := schedule_irq_sleep_shell_wake
      { timerRun (task_sleep st ms) (max ((ms + 99) / 100) 2 - 1) with
          tick_count :=
            (timerRun (task_sleep st ms) (max ((ms + 99) / 100) 2 - 1)).tick_count + 1 }
      (spAt (timerRun (task_sleep st ms) (max ((ms + 99) / 100) 2 - 1)).task_pool
        (((timerRun (task_sleep st ms)
          (max ((ms + 99) / 100) 2 - 1)).current_task).getD 0))
      iS iSh (st.tick_count + (ms + 99) / 100) hc1 hc2 hc3 hc4 hneIS hc5
      (by
        show st.tick_count + (ms + 99) / 100 ≤
          (timerRun (task_sleep st ms) (max ((ms + 99) / 100) 2 - 1)).tick_count + 1
        rw [htk]
        omega)
    rw [show max ((ms + 99) / 100) 2 = (max ((ms + 99) / 100) 2 - 1) + 1 by omega,
      timerRun_succ_outer,
      show timerTick (timerRun (task_sleep st ms) (max ((ms + 99) / 100) 2 - 1)) =
        (schedule_irq
          { timerRun (task_sleep st ms) (max ((ms + 99) / 100) 2 - 1) with
              tick_count :=
                (timerRun (task_sleep st ms)
                  (max ((ms + 99) / 100) 2 - 1)).tick_count + 1 }
          (spAt (timerRun (task_sleep st ms) (max ((ms + 99) / 100) 2 - 1)).task_pool
            (((timerRun (task_sleep st ms)
              (max ((ms + 99) / 100) 2 - 1)).current_task).getD 0))).1 from rfl,
      hkey]
    refine ⟨rfl, ?_⟩
    apply stateAt_setState_same
    apply isSome_of_stateAt
    rw [(wake_check_state_iff _ _ _).mpr]
    apply eligibleB_of_blocked_due (d := st.tick_count + (ms + 99) / 100)
    · rw [stateAt_setState_other hneIS, stateAt_setSp]
      exact hc3
    · rw [sleepAt_setState, sleepAt_setSp]
      exact hc4
    · show st.tick_count + (ms + 99) / 100 ≤
        (timerRun (task_sleep st ms) (max ((ms + 99) / 100) 2 - 1)).tick_count + 1
      rw [htk]
      omega

/-- C3 counterexample: task 2 calls `task_sleep(100)` at tick 0, so
`ceil(100/100) = 1` and the claim promises it is RUNNING again no later
than 2 ticks after.  With two competing READY tasks it is still BLOCKED
after 1 and 2 ticks and first becomes RUNNING 3 ticks later. -/
theorem task_sleep_bound_cex :
    sleepAt (task_sleep sleepCexPre 100).task_pool 2 = some 1 ∧
    stateAt (task_sleep sleepCexPre 100).task_pool 2 = some task_state_t.blocked ∧
    stateAt (timerRun (task_sleep sleepCexPre 100) 1).task_pool 2 =
      some task_state_t.blocked ∧
    (timerRun (task_sleep sleepCexPre 100) 1).current_task = some 0 ∧
    stateAt (timerRun (task_sleep sleepCexPre 100) 2).task_pool 2 =
      some task_state_t.blocked ∧
    (timerRun (task_sleep sleepCexPre 100) 2).current_task = some 1 ∧
    stateAt (timerRun (task_sleep sleepCexPre 100) 3).task_pool 2 =
      some task_state_t.running ∧
    (timerRun (task_sleep sleepCexPre 100) 3).current_task = some 2 := by
  decide

/-- Witness for the amended C3 with `ms = 250` (three ticks). -/
theorem task_sleep_bounds_witness :
    (sleepWitPre.current_task = some 1 ∧
      sleepWitPre.task_pool[1]? =
        some { sp := 0, state := task_state_t.running, id := 1, name := "s", sleep_until := 0 } ∧
      sleepWitPre.ready_queue = [0] ∧
      1 ≤ (250 + 99) / 100) ∧
    (stateAt (task_sleep sleepWitPre 250).task_pool 1 = some task_state_t.blocked ∧
    sleepAt (task_sleep sleepWitPre 250).task_pool 1 =
      some (sleepWitPre.tick_count + (250 + 99) / 100) ∧
    (task_sleep sleepWitPre 250).ready_queue = sleepWitPre.ready_queue ++ [1] ∧
    (∀ j, j < max ((250 + 99) / 100) 2 →
      stateAt (timerRun (task_sleep sleepWitPre 250) j).task_pool 1 =
        some task_state_t.blocked) ∧
    ((timerRun (task_sleep sleepWitPre 250) (max ((250 + 99) / 100) 2)).current_task =
        some 1 ∧
      stateAt (timerRun (task_sleep sleepWitPre 250)
        (max ((250 + 99) / 100) 2)).task_pool 1 = some task_state_t.running) ∧
    (250 + 99) / 100 ≤ max ((250 + 99) / 100) 2 ∧
    max ((250 + 99) / 100) 2 ≤ (250 + 99) / 100 + 1) :=
  ⟨⟨rfl, rfl, rfl, by decide⟩,
    task_sleep_bounds sleepWitPre 250 1 0
      { sp := 0, state := task_state_t.running, id := 1, name := "s", sleep_until := 0 }
      { sp := 0, state := task_state_t.ready, id := 0, name := "shell", sleep_until := 0 }
      rfl rfl rfl rfl rfl (by decide) rfl (by decide)⟩

theorem findFit_eq (m : Nat → Nat) (size : Nat) (l : List Nat) :
    findFit m size l =
      match l.find? (fun blk => decide (size ≤ m blk)) with
      | none => none
      | some blk => some (blk, l.eraseP (fun b => decide (size ≤ m b))) := by
  induction l with
  | nil => rfl
  | cons blk rest ih =>
      by_cases h : size ≤ m blk
      · simp [findFit, List.find?_cons, List.eraseP_cons, h]
      · simp only [findFit, if_neg h, ih, List.find?_cons, List.eraseP_cons,
          decide_eq_true_eq, h, decide_False]
        cases hr : rest.find? (fun blk => decide (size ≤ m blk)) with
        | none => simp
        | some b => simp

/-- C5: for every `size > 0`, `kmalloc` follows exactly the claimed flow:
round `size` up to a multiple of 16 and add the header size to get `total`;
if the rounded size exceeds `PAGE_SIZE/2`, allocate `ceil(total/PAGE_SIZE)`
pages, record the page count in the header and return the pointer past the
header; otherwise take the first free-list block whose size fits, removing
it; otherwise place a new header at `brk` and advance it when
`brk + total ≤ heap_end`; otherwise fall back to the page path. -/
theorem kmalloc_matches_spec (st : MemState) (size0 : Nat) (h : 0 < size0) :
    kmalloc st size0 = kmallocSpec st size0 := by
  have hz : ¬ size0 = 0 := by omega
  unfold kmalloc kmallocSpec
  simp only [if_neg hz]
  by_cases hbig : (size0 + 15) / 16 * 16 > PAGE_SIZE / 2
  · simp only [if_pos hbig]
  · simp only [if_neg hbig, findFit_eq]
    cases hfind : st.free_list.find?
        (fun blk => decide ((size0 + 15) / 16 * 16 ≤ st.mem blk)) with
    | some blk => simp only [hfind]
    | none =>
        simp only [hfind]
        by_cases hbe : st.heap_brk + ((size0 + 15) / 16 * 16 + HEADER_SIZE) ≤ st.heap_end
        · rw [if_neg (by omega), if_pos hbe]
        · rw [if_pos (by omega), if_neg hbe]

/-- Witness for C5 on the freshly initialised heap with a 16-byte request. -/
theorem kmalloc_matches_spec_witness :
    0 < 16 ∧ kmalloc memory_init 16 = kmallocSpec memory_init 16 :=
  ⟨by decide, kmalloc_matches_spec memory_init 16 (by decide)⟩

theorem writeW_same (m : Nat → Nat) (a v : Nat) : writeW m a v a = v := by
  simp [writeW]

theorem writeW_other (m : Nat → Nat) (a v x : Nat) (h : x ≠ a) :
    writeW m a v x = m x := by
  simp [writeW, h]

theorem kmalloc_pages_magic (st : MemState) (size total : Nat)
    (hp : (kmalloc_pages st size total).2 ≠ 0) :
    (kmalloc_pages st size total).1.mem ((kmalloc_pages st size total).2 - 24) =
      BLOCK_MAGIC := by
  by_cases hr : (page_alloc_n st ((total + PAGE_SIZE - 1) / PAGE_SIZE)).2 = 0
  · exfalso
    apply hp
    unfold kmalloc_pages
    simp [hr]
  · unfold kmalloc_pages
    simp only [if_neg hr]
    rw [show (page_alloc_n st ((total + PAGE_SIZE - 1) / PAGE_SIZE)).2 + HEADER_SIZE - 24 =
        (page_alloc_n st ((total + PAGE_SIZE - 1) / PAGE_SIZE)).2 + 8 by
      unfold HEADER_SIZE
      omega]
    rw [writeW_other _ _ _ _ (by omega), writeW_other _ _ _ _ (by omega), writeW_same]

/-- C6 (amended): for every non-null pointer `p` returned by `kmalloc`, the
block header occupies the 32 bytes before `p` and its magic field sits at
offset 8 of the header, i.e. the word at `p - 24` holds 0xDEADBEEF.  (The
word at `p - 8` is the `is_page_alloc` field, not the magic — see the
counterexample.) -/
theorem kmalloc_magic_before_pointer (st : MemState) (size0 : Nat)
    (hp : (kmalloc st size0).2 ≠ 0) :
    (kmalloc st size0).1.mem ((kmalloc st size0).2 - 24) = BLOCK_MAGIC := by
  by_cases hz : size0 = 0
  · exfalso
    apply hp
    subst hz
    rfl
  · unfold kmalloc at hp ⊢
    simp only [if_neg hz] at hp ⊢
    by_cases hbig : (size0 + 15) / 16 * 16 > PAGE_SIZE / 2
    · simp only [if_pos hbig] at hp ⊢
      exact kmalloc_pages_magic _ _ _ hp
    · simp only [if_neg hbig] at hp ⊢
      cases hfind : findFit st.mem ((size0 + 15) / 16 * 16) st.free_list with
      | some r =>
          simp only [hfind]
          rw [show r.1 + HEADER_SIZE - 24 = r.1 + 8 by unfold HEADER_SIZE; omega,
            writeW_same]
      | none =>
          simp only [hfind] at hp ⊢
          by_cases hbe : st.heap_brk + ((size0 + 15) / 16 * 16 + HEADER_SIZE) >
              st.heap_end
          · simp only [if_pos hbe] at hp ⊢
            exact kmalloc_pages_magic _ _ _ hp
          · simp only [if_neg hbe]
            rw [show st.heap_brk + HEADER_SIZE - 24 = st.heap_brk + 8 by
                unfold HEADER_SIZE
                omega,
              writeW_other _ _ _ _ (by omega), writeW_other _ _ _ _ (by omega),
              writeW_same]

/-- Witness for the amended C6 on the freshly initialised heap. -/
theorem kmalloc_magic_before_pointer_witness :
    (kmalloc memory_init 16).2 ≠ 0 ∧
    (kmalloc memory_init 16).1.mem ((kmalloc memory_init 16).2 - 24) =
      BLOCK_MAGIC :=
  ⟨by decide, kmalloc_magic_before_pointer memory_init 16 (by decide)⟩

/-- C6 counterexample: for the first 16-byte allocation after
`memory_init`, the returned pointer `p` is non-null, yet the 8-byte word at
`p - 8` holds the header's `is_page_alloc` field (0 here), not the magic
0xDEADBEEF; the magic lives at `p - 24`. -/
theorem kmalloc_magic_cex :
    (kmalloc memory_init 16).2 ≠ 0 ∧
    (kmalloc memory_init 16).1.mem ((kmalloc memory_init 16).2 - 8) ≠
      BLOCK_MAGIC ∧
    (kmalloc memory_init 16).1.mem ((kmalloc memory_init 16).2 - 8) = 0 ∧
    (kmalloc memory_init 16).1.mem ((kmalloc memory_init 16).2 - 24) =
      BLOCK_MAGIC := by
  decide

theorem bitmap_set_same {bm : Nat → Bool} {lp : Nat} (h : lp < MANAGED_PAGES) :
    bitmap_set bm lp lp = true := by
  unfold bitmap_set
  rw [if_pos h]
  simp

theorem bitmap_set_other {bm : Nat → Bool} {lp l : Nat} (h : l ≠ lp) :
    bitmap_set bm lp l = bm l := by
  unfold bitmap_set
  by_cases hm : lp < MANAGED_PAGES
  · rw [if_pos hm]
    simp [h]
  · rw [if_neg hm]

theorem bitmap_clear_same {bm : Nat → Bool} {lp : Nat} (h : lp < MANAGED_PAGES) :
    bitmap_clear bm lp lp = false := by
  unfold bitmap_clear
  rw [if_pos h]
  simp

theorem bitmap_clear_other {bm : Nat → Bool} {lp l : Nat} (h : l ≠ lp) :
    bitmap_clear bm lp l = bm l := by
  unfold bitmap_clear
  by_cases hm : lp < MANAGED_PAGES
  · rw [if_pos hm]
    simp [h]
  · rw [if_neg hm]

theorem bitmap_test_lt {bm : Nat → Bool} {lp : Nat} (h : lp < MANAGED_PAGES) :
    bitmap_test bm lp = bm lp := by
  unfold bitmap_test
  rw [if_pos h]

theorem findRun_some {bm : Nat → Bool} {count : Nat} : ∀ fuel i0 i,
    findRun bm count fuel i0 = some i →
    i + count ≤ total_pages ∧ ∀ j, j < count → bitmap_test bm (i + j) = false := by
  intro fuel
  induction fuel with
  | zero =>
      intro i0 i h
      exact Option.noConfusion h
  | succ f ih =>
      intro i0 i h
      unfold findRun at h
      by_cases hx : i0 + count ≤ total_pages
      · rw [if_pos hx] at h
        cases hfs : firstSet bm i0 count with
        | none =>
            rw [hfs] at h
            simp only [Option.some.injEq] at h
            subst h
            refine ⟨hx, ?_⟩
            intro j hj
            have hmem : j ∈ List.range count := List.mem_range.mpr hj
            have := List.find?_eq_none.mp hfs j hmem
            simpa using this
        | some j =>
            rw [hfs] at h
            exact ih (i0 + j + 1) i h
      · rw [if_neg hx] at h
        exact Option.noConfusion h

theorem allocFold_used (c : Nat) (bm : Nat → Bool) (u i : Nat) :
    ((List.range c).foldl
      (fun acc j => (bitmap_set acc.1 (i + j), acc.2 + 1)) (bm, u)).2 = u + c := by
  induction c with
  | zero => rfl
  | succ k ih =>
      rw [List.range_succ, List.foldl_append]
      simp only [List.foldl_cons, List.foldl_nil]
      show ((List.range k).foldl
        (fun acc j => (bitmap_set acc.1 (i + j), acc.2 + 1)) (bm, u)).2 + 1 = u + (k + 1)
      rw [ih]
      omega

theorem allocFold_bitmap (c : Nat) (bm : Nat → Bool) (u i : Nat)
    (hM : i + c ≤ total_pages) (l : Nat) :
    ((List.range c).foldl
      (fun acc j => (bitmap_set acc.1 (i + j), acc.2 + 1)) (bm, u)).1 l =
      if i ≤ l ∧ l < i + c then true else bm l := by
  induction c with
  | zero =>
      rw [if_neg (by omega)]
      rfl
  | succ k ih =>
      rw [List.range_succ, List.foldl_append]
      simp only [List.foldl_cons, List.foldl_nil]
      have hik : i + k < MANAGED_PAGES := by
        have ht : total_pages = MANAGED_PAGES := rfl
        omega
      show bitmap_set ((List.range k).foldl
        (fun acc j => (bitmap_set acc.1 (i + j), acc.2 + 1)) (bm, u)).1 (i + k) l = _
      by_cases hl : l = i + k
      · subst hl
        rw [bitmap_set_same hik, if_pos (by omega)]
      · rw [bitmap_set_other hl, ih (by omega)]
        by_cases hw : i ≤ l ∧ l < i + k
        · rw [if_pos hw, if_pos (by omega)]
        · rw [if_neg hw, if_neg (by omega)]

theorem decWrap_of_pos {v : Nat} (h1 : 1 ≤ v) (h2 : v < 2 ^ 64) :
    decWrap v = v - 1 := by
  unfold decWrap
  have he : (2 : Nat) ^ 64 = 18446744073709551616 := by norm_num
  rw [he] at h2 ⊢
  omega

theorem clearFold_spec (c : Nat) (bm : Nat → Bool) (u lp : Nat)
    (hM : lp + c ≤ total_pages)
    (hall : ∀ j, j < c → bm (lp + j) = true)
    (hu : c ≤ u) (hub : u < 2 ^ 64) :
    (((List.range c).foldl
      (fun acc j =>
        if bitmap_test acc.1 (lp + j) then (bitmap_clear acc.1 (lp + j), decWrap acc.2)
        else acc)
      (bm, u)).2 = u - c ∧
    ∀ l, ((List.range c).foldl
      (fun acc j =>
        if bitmap_test acc.1 (lp + j) then (bitmap_clear acc.1 (lp + j), decWrap acc.2)
        else acc)
      (bm, u)).1 l = if lp ≤ l ∧ l < lp + c then false else bm l) := by
  induction c with
  | zero =>
      refine ⟨by simp, ?_⟩
      intro l
      rw [if_neg (by omega)]
      rfl
  | succ k ih =>
      obtain ⟨ihu, ihb⟩ := ih (by omega) (fun j hj => hall j (by omega)) (by omega)
      rw [List.range_succ, List.foldl_append]
      simp only [List.foldl_cons, List.foldl_nil]
      have hlpk : lp + k < MANAGED_PAGES := by
        have ht : total_pages = MANAGED_PAGES := rfl
        omega
      have htest : bitmap_test ((List.range k).foldl
          (fun acc j =>
            if bitmap_test acc.1 (lp + j) then (bitmap_clear acc.1 (lp + j), decWrap acc.2)
            else acc)
          (bm, u)).1 (lp + k) = true := by
        rw [bitmap_test_lt hlpk, ihb (lp + k), if_neg (by omega)]
        exact hall k (by omega)
      rw [if_pos htest]
      constructor
      · show decWrap ((List.range k).foldl
          (fun acc j =>
            if bitmap_test acc.1 (lp + j) then (bitmap_clear acc.1 (lp + j), decWrap acc.2)
            else acc)
          (bm, u)).2 = u - (k + 1)
        rw [ihu, decWrap_of_pos (by omega) (by omega)]
        omega
      · intro l
        show bitmap_clear ((List.range k).foldl
          (fun acc j =>
            if bitmap_test acc.1 (lp + j) then (bitmap_clear acc.1 (lp + j), decWrap acc.2)
            else acc)
          (bm, u)).1 (lp + k) l = _
        by_cases hl : l = lp + k
        · subst hl
          rw [bitmap_clear_same hlpk, if_pos (by omega)]
        · rw [bitmap_clear_other hl, ihb l]
          by_cases hw : lp ≤ l ∧ l < lp + k
          · rw [if_pos hw, if_pos (by omega)]
          · rw [if_neg hw, if_neg (by omega)]

theorem page_free_n_used (st : MemState) (addr count lp : Nat)
    (hdiv : addr / PAGE_SIZE = first_free_page + lp) :
    (page_free_n st addr count).used_pages =
      ((List.range count).foldl
        (fun acc j =>
          if bitmap_test acc.1 (lp + j) then (bitmap_clear acc.1 (lp + j), decWrap acc.2)
          else acc)
        (st.bitmap, st.used_pages)).2 := by
  unfold page_free_n
  simp only [hdiv]
  rw [if_neg (by omega), show first_free_page + lp - first_free_page = lp from by omega]

/-- C7: for `n` between 1 and the free-page count, a successful
`page_alloc_n(n)` returns a 4096-byte aligned address, and an immediate
`page_free_n(p, n)` restores both the used-page and the free-page count to
their values before the allocation. -/
theorem page_alloc_roundtrip (st : MemState) (n : Nat)
    (h1 : 1 ≤ n) (h2 : n ≤ memory_get_free_pages st)
    (hs : (page_alloc_n st n).2 ≠ 0) :
    (page_alloc_n st n).2 % PAGE_SIZE = 0 ∧
    memory_get_used_pages
      (page_free_n (page_alloc_n st n).1 (page_alloc_n st n).2 n) =
      memory_get_used_pages st ∧
    memory_get_free_pages
      (page_free_n (page_alloc_n st n).1 (page_alloc_n st n).2 n) =
      memory_get_free_pages st := by
  have hn0 : ¬ n = 0 := by omega
  cases hfind : findRun st.bitmap n (total_pages + 1) 0 with
  | none =>
      exfalso
      apply hs
      unfold page_alloc_n
      rw [if_neg hn0, hfind]
  | some i =>
      obtain ⟨hbound, hclear⟩ := findRun_some (total_pages + 1) 0 i hfind
      have htp : total_pages = 16384 := rfl
      have hused : st.used_pages + n ≤ total_pages := by
        unfold memory_get_free_pages at h2
        omega
      have halloc : page_alloc_n st n =
          ({ st with
              bitmap := ((List.range n).foldl
                (fun acc j => (bitmap_set acc.1 (i + j), acc.2 + 1))
                (st.bitmap, st.used_pages)).1
              used_pages := ((List.range n).foldl
                (fun acc j => (bitmap_set acc.1 (i + j), acc.2 + 1))
                (st.bitmap, st.used_pages)).2 },
            (first_free_page + i) * PAGE_SIZE) := by
        unfold page_alloc_n
        rw [if_neg hn0, hfind]
      have hp2 : (page_alloc_n st n).2 = (first_free_page + i) * PAGE_SIZE := by
        rw [halloc]
      have hb2 : (page_alloc_n st n).1.bitmap =
          ((List.range n).foldl
            (fun acc j => (bitmap_set acc.1 (i + j), acc.2 + 1))
            (st.bitmap, st.used_pages)).1 := by
        rw [halloc]
      have hu2 : (page_alloc_n st n).1.used_pages =
          ((List.range n).foldl
            (fun acc j => (bitmap_set acc.1 (i + j), acc.2 + 1))
            (st.bitmap, st.used_pages)).2 := by
        rw [halloc]
      have hdiv : (page_alloc_n st n).2 / PAGE_SIZE = first_free_page + i := by
        rw [hp2]
        exact Nat.mul_div_cancel _ (by norm_num [PAGE_SIZE])
      have hspec := clearFold_spec n
        ((List.range n).foldl
          (fun acc j => (bitmap_set acc.1 (i + j), acc.2 + 1))
          (st.bitmap, st.used_pages)).1
        ((List.range n).foldl
          (fun acc j => (bitmap_set acc.1 (i + j), acc.2 + 1))
          (st.bitmap, st.used_pages)).2
        i (by omega)
        (by
          intro j hj
          rw [allocFold_bitmap n st.bitmap st.used_pages i hbound (i + j),
            if_pos (by omega)])
        (by rw [allocFold_used]; omega)
        (by
          rw [allocFold_used]
          have he : (2:Nat) ^ 64 = 18446744073709551616 := by norm_num
          omega)
      have hfree : (page_free_n (page_alloc_n st n).1 (page_alloc_n st n).2 n).used_pages =
          st.used_pages := by
        rw [page_free_n_used _ _ _ i hdiv, hb2, hu2, hspec.1, allocFold_used]
        omega
      refine ⟨?_, ?_, ?_⟩
      · rw [hp2]
        exact Nat.mul_mod_left _ _
      · exact hfree
      · unfold memory_get_free_pages
        rw [hfree]

/-- Witness for C7: allocating and freeing 3 pages right after
`memory_init` restores the counters, and the address is page-aligned. -/
theorem page_alloc_roundtrip_witness :
    (1 ≤ 3 ∧ 3 ≤ memory_get_free_pages memory_init ∧
      (page_alloc_n memory_init 3).2 ≠ 0) ∧
    ((page_alloc_n memory_init 3).2 % PAGE_SIZE = 0 ∧
    memory_get_used_pages
      (page_free_n (page_alloc_n memory_init 3).1 (page_alloc_n memory_init 3).2 3) =
      memory_get_used_pages memory_init ∧
    memory_get_free_pages
      (page_free_n (page_alloc_n memory_init 3).1 (page_alloc_n memory_init 3).2 3) =
      memory_get_free_pages memory_init) :=
  ⟨⟨by decide, by decide, by decide⟩,
    page_alloc_roundtrip memory_init 3 (by decide) (by decide) (by decide)⟩

theorem page_free_n_mem (st : MemState) (addr count : Nat) :
    (page_free_n st addr count).mem = st.mem := by
  by_cases h : addr / PAGE_SIZE < first_free_page
  · simp only [page_free_n, if_pos h]
  · simp only [page_free_n, if_neg h]

theorem page_free_n_free_list (st : MemState) (addr count : Nat) :
    (page_free_n st addr count).free_list = st.free_list := by
  by_cases h : addr / PAGE_SIZE < first_free_page
  · simp only [page_free_n, if_pos h]
  · simp only [page_free_n, if_neg h]

/-- C10: a successful `kfree(p)` clears the block magic before recycling
the block, so an immediate second `kfree(p)` sees a bad magic, only logs,
and changes nothing at all — the free list, heap and page bitmap are
untouched and the block is never pushed on the free list twice. -/
theorem kfree_double_free (st : MemState) (ptr : Nat)
    (hp : ¬ ptr = 0)
    (hm : st.mem (ptr - HEADER_SIZE + 8) = BLOCK_MAGIC) :
    (kfree st ptr).mem (ptr - HEADER_SIZE + 8) = 0 ∧
    kfree (kfree st ptr) ptr = kfree st ptr := by
  have hk1 : kfree st ptr =
      (if writeW st.mem (ptr - HEADER_SIZE + 8) 0 (ptr - HEADER_SIZE + 24) > 0 then
        page_free_n { st with mem := writeW st.mem (ptr - HEADER_SIZE + 8) 0 }
          (ptr - HEADER_SIZE)
          (writeW st.mem (ptr - HEADER_SIZE + 8) 0 (ptr - HEADER_SIZE + 24))
      else
        { st with
            mem := writeW (writeW st.mem (ptr - HEADER_SIZE + 8) 0)
              (ptr - HEADER_SIZE + 16)
              (match st.free_list with
               | [] => 0
               | h :: _ => h)
            free_list := (ptr - HEADER_SIZE) :: st.free_list }) := by
    unfold kfree
    rw [if_neg hp, if_neg (by intro hcon; exact hcon hm)]
  have hzero : (kfree st ptr).mem (ptr - HEADER_SIZE + 8) = 0 := by
    rw [hk1]
    by_cases hpg : writeW st.mem (ptr - HEADER_SIZE + 8) 0 (ptr - HEADER_SIZE + 24) > 0
    · rw [if_pos hpg, page_free_n_mem]
      show writeW st.mem (ptr - HEADER_SIZE + 8) 0 (ptr - HEADER_SIZE + 8) = 0
      exact writeW_same _ _ _
    · rw [if_neg hpg]
      show writeW (writeW st.mem (ptr - HEADER_SIZE + 8) 0)
        (ptr - HEADER_SIZE + 16) _ (ptr - HEADER_SIZE + 8) = 0
      rw [writeW_other _ _ _ _ (by omega)]
      exact writeW_same _ _ _
  have hne : (kfree st ptr).mem (ptr - HEADER_SIZE + 8) ≠ BLOCK_MAGIC := by
    rw [hzero]
    unfold BLOCK_MAGIC
    omega
  refine ⟨hzero, ?_⟩
  generalize hY : kfree st ptr = Y at hne ⊢
  unfold kfree
  rw [if_neg hp, if_pos hne]

/-- Witness for C10: double-freeing the first heap allocation after
`memory_init` is detected and leaves the state unchanged. -/
theorem kfree_double_free_witness :
    (¬ (kmalloc memory_init 16).2 = 0 ∧
      (kmalloc memory_init 16).1.mem
        ((kmalloc memory_init 16).2 - HEADER_SIZE + 8) = BLOCK_MAGIC) ∧
    ((kfree (kmalloc memory_init 16).1 (kmalloc memory_init 16).2).mem
        ((kmalloc memory_init 16).2 - HEADER_SIZE + 8) = 0 ∧
      kfree (kfree (kmalloc memory_init 16).1 (kmalloc memory_init 16).2)
          (kmalloc memory_init 16).2 =
        kfree (kmalloc memory_init 16).1 (kmalloc memory_init 16).2) :=
  ⟨⟨by decide, by decide⟩,
    kfree_double_free (kmalloc memory_init 16).1 (kmalloc memory_init 16).2
      (by decide) (by decide)⟩

/-! ## MMU translation tables (claim C8, mmu.c) -/

/-- Or-ing a value that is a multiple of `2^n` with a value below `2^n`
just adds them (the bit ranges are disjoint). -/
theorem lor_of_aligned {n a b : Nat} (ha : a % 2 ^ n = 0) (hb : b < 2 ^ n) :
    a ||| b = a + b := by
  obtain ⟨m, rfl⟩ : ∃ m, a = 2 ^ n * m := by
    refine ⟨a / 2 ^ n, ?_⟩
    have := Nat.div_add_mod a (2 ^ n)
    omega
  apply Nat.eq_of_testBit_eq
  intro i
  rw [Nat.testBit_or]
  by_cases hi : i < n
  · have h2 : 2 ^ n * m = 2 ^ i * (2 ^ (n - i) * m) := by
      rw [← Nat.mul_assoc, ← Nat.pow_add]
      congr 2
      omega
    obtain ⟨k, hk⟩ : ∃ k, n - i = k + 1 := ⟨n - i - 1, by omega⟩
    have heven : 2 ^ (n - i) * m % 2 = 0 := by
      have h3 : 2 ^ (n - i) * m = 2 * (2 ^ k * m) := by
        rw [hk, Nat.pow_succ]
        ring
      rw [h3]
      omega
    have ha0 : (2 ^ n * m).testBit i = false := by
      rw [Nat.testBit_to_div_mod, h2,
        Nat.mul_div_cancel_left _ (Nat.two_pow_pos i)]
      simp [heven]
    have hsum : (2 ^ n * m + b).testBit i = b.testBit i := by
      rw [Nat.testBit_to_div_mod, Nat.testBit_to_div_mod, h2, Nat.add_comm,
        Nat.add_mul_div_left _ _ (Nat.two_pow_pos i)]
      have h4 : (b / 2 ^ i + 2 ^ (n - i) * m) % 2 = b / 2 ^ i % 2 := by
        obtain ⟨y, hy⟩ : ∃ y, 2 ^ (n - i) * m = 2 * y :=
          ⟨2 ^ (n - i) * m / 2, by omega⟩
        rw [hy]
        omega
      rw [h4]
    rw [ha0, hsum]
    simp
  · have hbi : b.testBit i = false :=
      Nat.testBit_lt_two_pow
        (lt_of_lt_of_le hb (Nat.pow_le_pow_right (by omega) (by omega)))
    have hsum : (2 ^ n * m + b).testBit i = (2 ^ n * m).testBit i := by
      rw [Nat.testBit_to_div_mod, Nat.testBit_to_div_mod]
      have h2i : (2 : Nat) ^ i = 2 ^ n * 2 ^ (i - n) := by
        rw [← Nat.pow_add]
        congr 1
        omega
      rw [h2i, ← Nat.div_div_eq_div_mul, ← Nat.div_div_eq_div_mul]
      have hq : (2 ^ n * m + b) / 2 ^ n = m := by
        rw [Nat.add_comm, Nat.mul_comm,
          Nat.add_mul_div_right _ _ (Nat.two_pow_pos n)]
        have : b / 2 ^ n = 0 := Nat.div_eq_of_lt hb
        omega
      have hq2 : 2 ^ n * m / 2 ^ n = m :=
        Nat.mul_div_cancel_left _ (Nat.two_pow_pos n)
      rw [hq, hq2]
    rw [hbi, hsum]
    simp

/-- Extracting the table-address field of an aligned base plus low bits
gives back the base. -/
theorem descTableAddr_eq (b v : Nat) (hb : b % 4096 = 0) (hv : v < 4096)
    (hlt : b < 2 ^ 48) : descTableAddr (b + v) = b := by
  unfold descTableAddr
  have h36 : (2 : Nat) ^ 36 = 68719476736 := by norm_num
  have h48 : (2 : Nat) ^ 48 = 281474976710656 := by norm_num
  rw [h36]
  rw [h48] at hlt
  omega

/-- Extracting the 2 MB block output address of an aligned address plus
attribute bits gives back the address. -/
theorem descBlockAddr2M_eq (a v : Nat) (ha : a % 2097152 = 0)
    (hv : v < 2097152) (hlt : a < 2 ^ 48) : descBlockAddr2M (a + v) = a := by
  unfold descBlockAddr2M
  have h21 : (2 : Nat) ^ 21 = 2097152 := by norm_num
  have h27 : (2 : Nat) ^ 27 = 134217728 := by norm_num
  have h48 : (2 : Nat) ^ 48 = 281474976710656 := by norm_num
  rw [h21, h27]
  rw [h48] at hlt
  omega

theorem mmuMem_at_l0 (l0B l1B ramB devB x : Nat) (h1 : l0B ≤ x)
    (h2 : x < l0B + 4096) :
    mmuMem l0B l1B ramB devB x = l0_table l1B ((x - l0B) / 8) := by
  unfold mmuMem
  rw [if_pos ⟨h1, h2⟩]

theorem mmuMem_at_l1 (l0B l1B ramB devB x : Nat) (ho : l0B + 4096 ≤ l1B)
    (h1 : l1B ≤ x) (h2 : x < l1B + 4096) :
    mmuMem l0B l1B ramB devB x = l1_table ramB devB ((x - l1B) / 8) := by
  unfold mmuMem
  rw [if_neg (by omega), if_pos ⟨h1, h2⟩]

theorem mmuMem_at_ram (l0B l1B ramB devB x : Nat) (ho1 : l0B + 4096 ≤ l1B)
    (ho2 : l1B + 4096 ≤ ramB) (h1 : ramB ≤ x) (h2 : x < ramB + 4096) :
    mmuMem l0B l1B ramB devB x = l2_ram_table ((x - ramB) / 8) := by
  unfold mmuMem
  rw [if_neg (by omega), if_neg (by omega), if_pos ⟨h1, h2⟩]

theorem mmuMem_at_dev (l0B l1B ramB devB x : Nat) (ho1 : l0B + 4096 ≤ l1B)
    (ho2 : l1B + 4096 ≤ ramB) (ho3 : ramB + 4096 ≤ devB) (h1 : devB ≤ x)
    (h2 : x < devB + 4096) :
    mmuMem l0B l1B ramB devB x = l2_dev_table ((x - devB) / 8) := by
  unfold mmuMem
  rw [if_neg (by omega), if_neg (by omega), if_neg (by omega), if_pos ⟨h1, h2⟩]

/-- For any VA below 512 GB the level-0 walk step reads entry 0, which
points at the level-1 table. -/
theorem l0_entry_eq (l0B l1B ramB devB va : Nat) (h1a : l1B % 4096 = 0)
    (hva : va < 2 ^ 39) :
    l0_entry (mmuMem l0B l1B ramB devB) l0B va = l1B + 3 := by
  have h39 : (2 : Nat) ^ 39 = 549755813888 := by norm_num
  have hidx : va / 2 ^ 39 % 512 = 0 := by
    rw [h39]
    rw [h39] at hva
    omega
  unfold l0_entry
  rw [hidx, Nat.mul_zero, Nat.add_zero,
    mmuMem_at_l0 l0B l1B ramB devB l0B (Nat.le_refl l0B) (by omega),
    Nat.sub_self, Nat.zero_div]
  unfold l0_table
  rw [if_pos rfl, show TABLE_ENTRY = 3 from by decide]
  exact lor_of_aligned (n := 12)
    (by rw [show (2 : Nat) ^ 12 = 4096 from by norm_num]; exact h1a)
    (by norm_num)

/-- RAM region walk: a 2 MB-aligned VA below 1 GB resolves to the
identity block descriptor `va + BLOCK_NORMAL`. -/
theorem walk2M_ram (l0B l1B ramB devB va : Nat)
    (h1a : l1B % 4096 = 0) (hra : ramB % 4096 = 0)
    (hlt : devB + 4096 ≤ 2 ^ 48)
    (ho1 : l0B + 4096 ≤ l1B) (ho2 : l1B + 4096 ≤ ramB)
    (ho3 : ramB + 4096 ≤ devB)
    (hal : va % 2097152 = 0) (hva : va < 0x40000000) :
    walk2M (mmuMem l0B l1B ramB devB) l0B va = some (va + 1797) := by
  have h48 : (2 : Nat) ^ 48 = 281474976710656 := by norm_num
  rw [h48] at hlt
  have h0e : l0_entry (mmuMem l0B l1B ramB devB) l0B va = l1B + 3 :=
    l0_entry_eq l0B l1B ramB devB va h1a
      (by rw [show (2 : Nat) ^ 39 = 549755813888 from by norm_num]; omega)
  have h1e : l1_entry (mmuMem l0B l1B ramB devB) l0B va = ramB + 3 := by
    unfold l1_entry
    rw [h0e, descTableAddr_eq l1B 3 h1a (by norm_num) (by rw [h48]; omega)]
    have hidx : va / 2 ^ 30 % 512 = 0 := by
      rw [show (2 : Nat) ^ 30 = 1073741824 from by norm_num]
      omega
    rw [hidx, Nat.mul_zero, Nat.add_zero,
      mmuMem_at_l1 l0B l1B ramB devB l1B ho1 (Nat.le_refl l1B) (by omega),
      Nat.sub_self, Nat.zero_div]
    unfold l1_table
    rw [if_pos rfl, show TABLE_ENTRY = 3 from by decide]
    exact lor_of_aligned (n := 12)
      (by rw [show (2 : Nat) ^ 12 = 4096 from by norm_num]; exact hra)
      (by norm_num)
  have h2e : l2_entry (mmuMem l0B l1B ramB devB) l0B va = va + 1797 := by
    unfold l2_entry
    rw [h1e, descTableAddr_eq ramB 3 hra (by norm_num) (by rw [h48]; omega)]
    have hidx : va / 2 ^ 21 % 512 = va / 2097152 := by
      rw [show (2 : Nat) ^ 21 = 2097152 from by norm_num]
      omega
    rw [hidx,
      mmuMem_at_ram l0B l1B ramB devB (ramB + 8 * (va / 2097152)) ho1 ho2
        (by omega) (by omega)]
    have hq : (ramB + 8 * (va / 2097152) - ramB) / 8 = va / 2097152 := by
      omega
    rw [hq]
    unfold l2_ram_table
    rw [if_pos (by omega)]
    have hmul : va / 2097152 * (2 * 1024 * 1024) = va := by omega
    rw [hmul, show BLOCK_NORMAL = 1797 from by decide]
    exact lor_of_aligned (n := 21)
      (by rw [show (2 : Nat) ^ 21 = 2097152 from by norm_num]; exact hal)
      (by norm_num)
  unfold walk2M
  rw [h0e, h1e, h2e, if_pos (by omega), if_pos (by omega), if_pos (by omega)]

/-- Device region walk: a 2 MB-aligned VA in the fourth gigabyte resolves
to the identity block descriptor `va + BLOCK_DEVICE`. -/
theorem walk2M_dev (l0B l1B ramB devB va : Nat)
    (h1a : l1B % 4096 = 0) (hda : devB % 4096 = 0)
    (hlt : devB + 4096 ≤ 2 ^ 48)
    (ho1 : l0B + 4096 ≤ l1B) (ho2 : l1B + 4096 ≤ ramB)
    (ho3 : ramB + 4096 ≤ devB)
    (hal : va % 2097152 = 0) (hlo : 0xC0000000 ≤ va)
    (hhi : va < 0x100000000) :
    walk2M (mmuMem l0B l1B ramB devB) l0B va = some (va + 1537) := by
  have h48 : (2 : Nat) ^ 48 = 281474976710656 := by norm_num
  rw [h48] at hlt
  have h0e : l0_entry (mmuMem l0B l1B ramB devB) l0B va = l1B + 3 :=
    l0_entry_eq l0B l1B ramB devB va h1a
      (by rw [show (2 : Nat) ^ 39 = 549755813888 from by norm_num]; omega)
  have h1e : l1_entry (mmuMem l0B l1B ramB devB) l0B va = devB + 3 := by
    unfold l1_entry
    rw [h0e, descTableAddr_eq l1B 3 h1a (by norm_num) (by rw [h48]; omega)]
    have hidx : va / 2 ^ 30 % 512 = 3 := by
      rw [show (2 : Nat) ^ 30 = 1073741824 from by norm_num]
      omega
    rw [hidx,
      mmuMem_at_l1 l0B l1B ramB devB (l1B + 8 * 3) ho1 (by omega) (by omega)]
    have hq : (l1B + 8 * 3 - l1B) / 8 = 3 := by omega
    rw [hq]
    unfold l1_table
    rw [if_neg (by omega), if_pos rfl, show TABLE_ENTRY = 3 from by decide]
    exact lor_of_aligned (n := 12)
      (by rw [show (2 : Nat) ^ 12 = 4096 from by norm_num]; exact hda)
      (by norm_num)
  have h2e : l2_entry (mmuMem l0B l1B ramB devB) l0B va = va + 1537 := by
    unfold l2_entry
    rw [h1e, descTableAddr_eq devB 3 hda (by norm_num) (by rw [h48]; omega)]
    have hidx : va / 2 ^ 21 % 512 = va / 2097152 - 1536 := by
      rw [show (2 : Nat) ^ 21 = 2097152 from by norm_num]
      omega
    rw [hidx,
      mmuMem_at_dev l0B l1B ramB devB (devB + 8 * (va / 2097152 - 1536)) ho1
        ho2 ho3 (by omega) (by omega)]
    have hq : (devB + 8 * (va / 2097152 - 1536) - devB) / 8
        = va / 2097152 - 1536 := by omega
    rw [hq]
    unfold l2_dev_table
    rw [if_pos (by omega)]
    have hmul : 0xC0000000 + (va / 2097152 - 1536) * (2 * 1024 * 1024)
        = va := by omega
    rw [hmul, show BLOCK_DEVICE = 1537 from by decide]
    exact lor_of_aligned (n := 21)
      (by rw [show (2 : Nat) ^ 21 = 2097152 from by norm_num]; exact hal)
      (by norm_num)
  unfold walk2M
  rw [h0e, h1e, h2e, if_pos (by omega), if_pos (by omega), if_pos (by omega)]

/-- Attribute fields of a normal identity block descriptor. -/
theorem desc_fields_normal (va : Nat) (hal : va % 2097152 = 0) :
    descAttrIdx (va + 1797) = 1 ∧ descSH (va + 1797) = 3 ∧
    descAP (va + 1797) = 0 ∧ descAF (va + 1797) = 1 := by
  unfold descAttrIdx descSH descAP descAF
  omega

/-- Attribute fields of a device identity block descriptor. -/
theorem desc_fields_device (va : Nat) (hal : va % 2097152 = 0) :
    descAttrIdx (va + 1537) = 0 ∧ descSH (va + 1537) = 2 ∧
    descAP (va + 1537) = 0 ∧ descAF (va + 1537) = 1 := by
  unfold descAttrIdx descSH descAP descAF
  omega

/-- C8: after mmu_init builds the translation tables, every 2 MB-aligned
virtual address below 0x40000000 is identity-mapped by a level-2 block
descriptor with normal (AttrIndx = MT_NORMAL), inner-shareable (SH = 3),
EL1 read/write (AP = 0), access-flag-set attributes; every 2 MB-aligned
virtual address in [0xC0000000, 0xFFFFFFFF] is identity-mapped by a
level-2 block descriptor with device (AttrIndx = MT_DEVICE),
outer-shareable (SH = 2) attributes; and the level-1 table entry 0 points
to the RAM level-2 table, entry 3 to the device level-2 table. -/
theorem mmu_identity_map (l0B l1B ramB devB : Nat)
    (h1a : l1B % 4096 = 0) (hra : ramB % 4096 = 0) (hda : devB % 4096 = 0)
    (hlt : devB + 4096 ≤ 2 ^ 48)
    (ho1 : l0B + 4096 ≤ l1B) (ho2 : l1B + 4096 ≤ ramB)
    (ho3 : ramB + 4096 ≤ devB) :
    (∀ va : Nat, va % (2 * 1024 * 1024) = 0 → va ≤ 0x3FFFFFFF →
      ∃ d, walk2M (mmuMem l0B l1B ramB devB) l0B va = some d ∧
        descBlockAddr2M d = va ∧ descAttrIdx d = MT_NORMAL ∧
        descSH d = 3 ∧ descAP d = 0 ∧ descAF d = 1) ∧
    (∀ va : Nat, va % (2 * 1024 * 1024) = 0 → 0xC0000000 ≤ va →
      va ≤ 0xFFFFFFFF →
      ∃ d, walk2M (mmuMem l0B l1B ramB devB) l0B va = some d ∧
        descBlockAddr2M d = va ∧ descAttrIdx d = MT_DEVICE ∧
        descSH d = 2 ∧ descAP d = 0 ∧ descAF d = 1) ∧
    mmuMem l0B l1B ramB devB (l1B + 8 * 0) = ramB ||| TABLE_ENTRY ∧
    mmuMem l0B l1B ramB devB (l1B + 8 * 3) = devB ||| TABLE_ENTRY := by
  have h48 : (2 : Nat) ^ 48 = 281474976710656 := by norm_num
  refine ⟨?_, ?_, ?_, ?_⟩
  · intro va hal hva
    have hal2 : va % 2097152 = 0 := by omega
    obtain ⟨hA, hS, hP, hF⟩ := desc_fields_normal va hal2
    exact ⟨va + 1797,
      walk2M_ram l0B l1B ramB devB va h1a hra hlt ho1 ho2 ho3 hal2 (by omega),
      descBlockAddr2M_eq va 1797 hal2 (by norm_num)
        (by rw [h48]; omega),
      hA, hS, hP, hF⟩
  · intro va hal hlo hhi
    have hal2 : va % 2097152 = 0 := by omega
    obtain ⟨hA, hS, hP, hF⟩ := desc_fields_device va hal2
    exact ⟨va + 1537,
      walk2M_dev l0B l1B ramB devB va h1a hda hlt ho1 ho2 ho3 hal2 hlo
        (by omega),
      descBlockAddr2M_eq va 1537 hal2 (by norm_num)
        (by rw [h48] at hlt ⊢; omega),
      hA, hS, hP, hF⟩
  · rw [Nat.mul_zero, Nat.add_zero,
      mmuMem_at_l1 l0B l1B ramB devB l1B ho1 (Nat.le_refl l1B) (by omega),
      Nat.sub_self, Nat.zero_div]
    unfold l1_table
    rw [if_pos rfl]
  · rw [mmuMem_at_l1 l0B l1B ramB devB (l1B + 8 * 3) ho1 (by omega)
      (by omega)]
    have hq : (l1B + 8 * 3 - l1B) / 8 = 3 := by omega
    rw [hq]
    unfold l1_table
    rw [if_neg (by omega), if_pos rfl]

/-- Witness for C8: concrete 4 KB-aligned, consecutive table bases; the
mapped RAM VA 0x200000 and device VA 0xC0200000 both resolve to identity
block descriptors with the claimed attributes. -/
theorem mmu_identity_map_witness :
    (0x83000 + 4096 ≤ 2 ^ 48) ∧
    (∃ d, walk2M (mmuMem 0x80000 0x81000 0x82000 0x83000) 0x80000 0x200000
        = some d ∧
      descBlockAddr2M d = 0x200000 ∧ descAttrIdx d = MT_NORMAL ∧
      descSH d = 3 ∧ descAP d = 0 ∧ descAF d = 1) ∧
    (∃ d, walk2M (mmuMem 0x80000 0x81000 0x82000 0x83000) 0x80000 0xC0200000
        = some d ∧
      descBlockAddr2M d = 0xC0200000 ∧ descAttrIdx d = MT_DEVICE ∧
      descSH d = 2 ∧ descAP d = 0 ∧ descAF d = 1) ∧
    mmuMem 0x80000 0x81000 0x82000 0x83000 (0x81000 + 8 * 0)
      = 0x82000 ||| TABLE_ENTRY ∧
    mmuMem 0x80000 0x81000 0x82000 0x83000 (0x81000 + 8 * 3)
      = 0x83000 ||| TABLE_ENTRY := by
  have h := mmu_identity_map 0x80000 0x81000 0x82000 0x83000 (by decide)
    (by decide) (by decide) (by decide) (by decide) (by decide) (by decide)
  exact ⟨by decide, h.1 0x200000 (by decide) (by decide),
    h.2.1 0xC0200000 (by decide) (by decide) (by decide), h.2.2.1, h.2.2.2⟩

theorem usedStep_of_eq (st st2 : FsState)
    (h : st2.nodes_used = st.nodes_used) : UsedStep st st2 := by
  refine ⟨by omega, by omega, ?_⟩
  intro he
  omega

theorem setNode_used (st : FsState) (i : Nat) (n : fs_node_t) :
    (setNode st i n).nodes_used = st.nodes_used := rfl

theorem free_node_used (st : FsState) (i : Nat) :
    (free_node st i).nodes_used = st.nodes_used := rfl

theorem add_child_used (st : FsState) (d c : Nat) :
    (add_child st d c).nodes_used = st.nodes_used := rfl

theorem remove_child_go_used (st : FsState) (child fuel : Nat) :
    ∀ p : Nat, (remove_child_go st child p fuel).nodes_used
      = st.nodes_used := by
  induction fuel with
  | zero => intro p; rfl
  | succ n ih =>
    intro p
    unfold remove_child_go
    cases h : (nodeAt st p).next_sibling with
    | none => simp only [h]
    | some q =>
      simp only [h]
      by_cases hq : q = child
      · rw [if_pos hq]
        rfl
      · rw [if_neg hq]
        exact ih q

theorem remove_child_used (st : FsState) (dir child : Nat) :
    (remove_child st dir child).nodes_used = st.nodes_used := by
  unfold remove_child
  cases h : (nodeAt st dir).children with
  | none => simp only [h]
  | some hd =>
    simp only [h]
    by_cases hq : hd = child
    · rw [if_pos hq]
      rfl
    · rw [if_neg hq]
      exact remove_child_go_used st child FS_MAX_NODES hd

/-- A failed `alloc_node` leaves the state untouched. -/
theorem alloc_node_full (st : FsState) (name : List Char)
    (ty : fs_node_type_t) (h : st.nodes_used ≥ FS_MAX_NODES) :
    alloc_node st name ty = (st, none) := by
  unfold alloc_node
  rw [if_pos h]

/-- A successful `alloc_node` hands out slot `nodes_used` and advances
the cursor by one. -/
theorem alloc_node_ok (st : FsState) (name : List Char)
    (ty : fs_node_type_t) (h : ¬ st.nodes_used ≥ FS_MAX_NODES) :
    ((alloc_node st name ty).1).nodes_used = st.nodes_used + 1 ∧
    (alloc_node st name ty).2 = some st.nodes_used := by
  unfold alloc_node
  rw [if_neg h]
  exact ⟨rfl, rfl⟩

theorem fs_mkdir_step (st : FsState) (p : List Char) :
    UsedStep st (fs_mkdir st p).1 := by
  unfold fs_mkdir
  split
  next => exact usedStep_of_eq st st rfl
  next parent basename heq =>
    split
    next => exact usedStep_of_eq st st rfl
    next =>
      split
      next => exact usedStep_of_eq st st rfl
      next =>
        split
        next => exact usedStep_of_eq st st rfl
        next =>
          split
          next st1 halloc =>
            by_cases h4 : st.nodes_used ≥ FS_MAX_NODES
            · rw [alloc_node_full st basename fs_node_type_t.FS_DIR h4]
                at halloc
              injection halloc with ha hb
              exact usedStep_of_eq st st1 (by rw [← ha])
            · obtain ⟨hu, hr⟩ :=
                alloc_node_ok st basename fs_node_type_t.FS_DIR h4
              rw [halloc] at hr
              exact Option.noConfusion hr
          next st1 dir halloc =>
            by_cases h4 : st.nodes_used ≥ FS_MAX_NODES
            · rw [alloc_node_full st basename fs_node_type_t.FS_DIR h4]
                at halloc
              injection halloc with ha hb
              exact Option.noConfusion hb
            · obtain ⟨hu, hr⟩ :=
                alloc_node_ok st basename fs_node_type_t.FS_DIR h4
              rw [halloc] at hu
              show UsedStep st (add_child st1 parent dir)
              refine ⟨?_, ?_, ?_⟩
              · rw [add_child_used, hu]
                omega
              · rw [add_child_used, hu]
              · intro _
                omega

theorem fs_touch_step (st : FsState) (p : List Char) :
    UsedStep st (fs_touch st p).1 := by
  unfold fs_touch
  split
  next => exact usedStep_of_eq st st rfl
  next =>
    split
    next => exact usedStep_of_eq st st rfl
    next parent basename heq =>
      split
      next => exact usedStep_of_eq st st rfl
      next =>
        split
        next => exact usedStep_of_eq st st rfl
        next =>
          split
          next st1 halloc =>
            by_cases h4 : st.nodes_used ≥ FS_MAX_NODES
            · rw [alloc_node_full st basename fs_node_type_t.FS_FILE h4]
                at halloc
              injection halloc with ha hb
              exact usedStep_of_eq st st1 (by rw [← ha])
            · obtain ⟨hu, hr⟩ :=
                alloc_node_ok st basename fs_node_type_t.FS_FILE h4
              rw [halloc] at hr
              exact Option.noConfusion hr
          next st1 file halloc =>
            by_cases h4 : st.nodes_used ≥ FS_MAX_NODES
            · rw [alloc_node_full st basename fs_node_type_t.FS_FILE h4]
                at halloc
              injection halloc with ha hb
              exact Option.noConfusion hb
            · obtain ⟨hu, hr⟩ :=
                alloc_node_ok st basename fs_node_type_t.FS_FILE h4
              rw [halloc] at hu
              show UsedStep st (add_child st1 parent file)
              refine ⟨?_, ?_, ?_⟩
              · rw [add_child_used, hu]
                omega
              · rw [add_child_used, hu]
              · intro _
                omega

theorem fs_write_to_used (st : FsState) (f : Nat) (c : List Char) :
    ((fs_write_to st f c).1).nodes_used = st.nodes_used := by
  unfold fs_write_to
  by_cases h1 : (nodeAt st f).type ≠ fs_node_type_t.FS_FILE
  · rw [if_pos h1]
  · rw [if_neg h1]
    by_cases h2 : min c.length FS_MAX_DATA > 0
    · rw [if_pos h2]
      rfl
    · rw [if_neg h2]
      rfl

theorem fs_write_step (st : FsState) (p c : List Char) :
    UsedStep st (fs_write st p c).1 := by
  unfold fs_write
  split
  next f heq => exact usedStep_of_eq st _ (fs_write_to_used st f c)
  next =>
    split
    next st1 htch =>
      have hstep := fs_touch_step st p
      simp only [htch] at hstep
      exact hstep
    next st1 f htch =>
      have hstep := fs_touch_step st p
      simp only [htch] at hstep
      obtain ⟨h1, h2, h3⟩ := hstep
      have hw := fs_write_to_used st1 f c
      refine ⟨?_, ?_, ?_⟩
      · rw [hw]
        exact h1
      · rw [hw]
        exact h2
      · rw [hw]
        exact h3

theorem fs_unlink_free_used (st : FsState) (node : Nat) :
    ((fs_unlink_free st node).1).nodes_used = st.nodes_used := by
  unfold fs_unlink_free
  split
  next par hpar =>
    show (free_node (remove_child st par node) node).nodes_used
      = st.nodes_used
    rw [free_node_used, remove_child_used]
  next hpar =>
    show (free_node st node).nodes_used = st.nodes_used
    exact free_node_used st node

theorem fs_rm_used (st : FsState) (p : List Char) :
    ((fs_rm st p).1).nodes_used = st.nodes_used := by
  unfold fs_rm
  split
  next => rfl
  next node heq =>
    split
    next => rfl
    next =>
      split
      next => rfl
      next => exact fs_unlink_free_used st node

theorem fs_rmdir_used (st : FsState) (p : List Char) :
    ((fs_rmdir st p).1).nodes_used = st.nodes_used := by
  unfold fs_rmdir
  split
  next => rfl
  next node heq =>
    split
    next => rfl
    next =>
      split
      next => rfl
      next =>
        split
        next => rfl
        next =>
          rw [fs_unlink_free_used]
          split
          next => rfl
          next => rfl

theorem fs_set_cwd_used (st : FsState) (d : Nat) :
    (fs_set_cwd st d).nodes_used = st.nodes_used := by
  unfold fs_set_cwd
  split
  next => rfl
  next => rfl

theorem applyOp_step (st : FsState) (op : FsOp) :
    UsedStep st (applyOp st op) := by
  cases op with
  | mkdir p => exact fs_mkdir_step st p
  | touch p => exact fs_touch_step st p
  | write p c => exact fs_write_step st p c
  | rm p => exact usedStep_of_eq st _ (fs_rm_used st p)
  | rmdir p => exact usedStep_of_eq st _ (fs_rmdir_used st p)
  | setCwd d => exact usedStep_of_eq st _ (fs_set_cwd_used st d)

/-- The pool cursor stays within the pool along any run. -/
theorem foldl_applyOp_le (ops : List FsOp) :
    ∀ st : FsState, st.nodes_used ≤ FS_MAX_NODES →
      (ops.foldl applyOp st).nodes_used ≤ FS_MAX_NODES := by
  induction ops with
  | nil => intro st h; exact h
  | cons op rest ih =>
    intro st h
    rw [List.foldl_cons]
    apply ih
    obtain ⟨h1, h2, h3⟩ := applyOp_step st op
    by_cases he : (applyOp st op).nodes_used = st.nodes_used + 1
    · have := h3 he
      omega
    · omega

/-- `free_node` leaves the freed slot with no data and size 0 (out of
range the pool read gives the blank default anyway). -/
theorem nodeAt_free_node_self (st : FsState) (i : Nat) :
    (nodeAt (free_node st i) i).data = none ∧
    (nodeAt (free_node st i) i).size = 0 := by
  unfold free_node setNode nodeAt
  rcases Nat.lt_or_ge i st.node_pool.length with hlt | hge
  · rw [List.getD_eq_getElem?_getD, List.getElem?_set_self hlt]
    exact ⟨rfl, rfl⟩
  · rw [List.getD_eq_getElem?_getD,
      List.getElem?_eq_none (by rw [List.length_set]; omega)]
    exact ⟨rfl, rfl⟩

theorem fs_unlink_free_clears (st : FsState) (node : Nat) :
    (nodeAt (fs_unlink_free st node).1 node).data = none ∧
    (nodeAt (fs_unlink_free st node).1 node).size = 0 := by
  unfold fs_unlink_free
  split
  next par hpar => exact nodeAt_free_node_self (remove_child st par node) node
  next hpar => exact nodeAt_free_node_self st node

/-- A successful `fs_rm` leaves the removed node's slot with its data
buffer released. -/
theorem fs_rm_clears (st : FsState) (p : List Char) (node : Nat)
    (hres : fs_resolve st p = some node) (hsucc : (fs_rm st p).2 = 0) :
    (nodeAt (fs_rm st p).1 node).data = none ∧
    (nodeAt (fs_rm st p).1 node).size = 0 := by
  unfold fs_rm at hsucc ⊢
  simp only [hres] at hsucc ⊢
  by_cases h1 : (nodeAt st node).type = fs_node_type_t.FS_DIR
  · rw [if_pos h1] at hsucc
    simp at hsucc
  · rw [if_neg h1] at hsucc ⊢
    by_cases h2 : node = st.root
    · rw [if_pos h2] at hsucc
      simp at hsucc
    · rw [if_neg h2]
      exact fs_unlink_free_clears st node

/-- A successful `fs_rmdir` likewise releases the node's data. -/
theorem fs_rmdir_clears (st : FsState) (p : List Char) (node : Nat)
    (hres : fs_resolve st p = some node) (hsucc : (fs_rmdir st p).2 = 0) :
    (nodeAt (fs_rmdir st p).1 node).data = none ∧
    (nodeAt (fs_rmdir st p).1 node).size = 0 := by
  unfold fs_rmdir at hsucc ⊢
  simp only [hres] at hsucc ⊢
  by_cases h1 : (nodeAt st node).type ≠ fs_node_type_t.FS_DIR
  · rw [if_pos h1] at hsucc
    simp at hsucc
  · rw [if_neg h1] at hsucc ⊢
    by_cases h2 : node = st.root
    · rw [if_pos h2] at hsucc
      simp at hsucc
    · rw [if_neg h2] at hsucc ⊢
      by_cases h3 : (nodeAt st node).children.isSome = true
      · rw [if_pos h3] at hsucc
        simp at hsucc
      · rw [if_neg h3]
        exact fs_unlink_free_clears _ node

/-- C9: filesystem node-pool slots are never reclaimed.  fs_rm and
fs_rmdir leave the pool cursor `nodes_used` exactly unchanged (they only
release the node's data buffer); no shell-reachable fs operation ever
decreases it; a node creation (`alloc_node`, reached from fs_mkdir and
fs_touch) succeeds exactly when `nodes_used < FS_MAX_NODES` and then
advances the cursor by one; `fs_init` creates the root (cursor 1); and
along every operation sequence from `fs_init` the cursor stays at most
`FS_MAX_NODES` = 64, so at most 64 creations - root included - can ever
succeed, deletions notwithstanding. -/
theorem fs_pool_never_reclaimed :
    (∀ (st : FsState) (p : List Char),
      ((fs_rm st p).1).nodes_used = st.nodes_used) ∧
    (∀ (st : FsState) (p : List Char),
      ((fs_rmdir st p).1).nodes_used = st.nodes_used) ∧
    (∀ (st : FsState) (p : List Char) (node : Nat),
      fs_resolve st p = some node → (fs_rm st p).2 = 0 →
      (nodeAt (fs_rm st p).1 node).data = none) ∧
    (∀ (st : FsState) (op : FsOp),
      st.nodes_used ≤ (applyOp st op).nodes_used) ∧
    (∀ (st : FsState) (name : List Char) (ty : fs_node_type_t),
      ((alloc_node st name ty).2.isSome = true ↔
        st.nodes_used < FS_MAX_NODES) ∧
      ((alloc_node st name ty).2.isSome = true →
        ((alloc_node st name ty).1).nodes_used = st.nodes_used + 1)) ∧
    fs_init.nodes_used = 1 ∧
    (∀ ops : List FsOp, (runOps ops).nodes_used ≤ FS_MAX_NODES) := by
  refine ⟨fs_rm_used, fs_rmdir_used, ?_, ?_, ?_, rfl, ?_⟩
  · intro st p node hres hsucc
    exact (fs_rm_clears st p node hres hsucc).1
  · intro st op
    exact (applyOp_step st op).1
  · intro st name ty
    refine ⟨⟨?_, ?_⟩, ?_⟩
    · intro hsome
      by_cases h : st.nodes_used ≥ FS_MAX_NODES
      · rw [alloc_node_full st name ty h] at hsome
        simp at hsome
      · omega
    · intro hlt
      rw [(alloc_node_ok st name ty (by omega)).2]
      rfl
    · intro hsome
      by_cases h : st.nodes_used ≥ FS_MAX_NODES
      · rw [alloc_node_full st name ty h] at hsome
        simp at hsome
      · exact (alloc_node_ok st name ty h).1
  · intro ops
    exact foldl_applyOp_le ops fs_init (by decide)

/-- Witness for C9: in the concrete demo state (root, dir `a`, file
`/a/f` with content), removing `/a/f` succeeds, releases its data, and
leaves `nodes_used` at 3 - the slot is not reclaimed. -/
theorem fs_pool_never_reclaimed_witness :
    fs_resolve fsDemoSt fsDemoPath = some 2 ∧
    (fs_rm fsDemoSt fsDemoPath).2 = 0 ∧
    (nodeAt (fs_rm fsDemoSt fsDemoPath).1 2).data = none ∧
    ((fs_rm fsDemoSt fsDemoPath).1).nodes_used = fsDemoSt.nodes_used ∧
    fsDemoSt.nodes_used = 3 := by
  have h := fs_pool_never_reclaimed
  have hres : fs_resolve fsDemoSt fsDemoPath = some 2 := by decide
  have hsucc : (fs_rm fsDemoSt fsDemoPath).2 = 0 := by decide
  exact ⟨hres, hsucc, h.2.2.1 fsDemoSt fsDemoPath 2 hres hsucc,
    h.1 fsDemoSt fsDemoPath, by decide⟩

end RPiOS
